import Mathlib

/-!
Verification of the parkos payment-profile store
(src/src-tauri/src/lib.rs).

The store persists a single JSON blob at
app_data_dir/payment_profile.json.  The Rust code is shallowly
embedded as follows:

* serde_json::Value is embedded as Json below.  JSON numbers are
  modelled by Int: the integer fragment of serde_json numbers
  (floating-point numbers are not shallowly embeddable; no claim
  depends on them).  serde_json::Map is a BTreeMap with String keys
  in ascending byte order, embedded as a key-sorted association list
  (strLt below is exactly lexicographic order on unicode scalar
  values, which coincides with Rust byte-wise String order because
  UTF-8 preserves code-point order).

* serde_json::from_str is embedded as Json.parse, a fuel-indexed
  recursive-descent parser mirroring the serde grammar
  (dispatch on the first non-whitespace character, strings with the
  serde escape set, integers with the leading-zero rule, arrays and
  objects with comma separators, trailing content rejected).

* serde_json::to_string_pretty is embedded as Json.prettyPrint,
  mirroring the serde PrettyFormatter: two-space indentation,
  a newline plus indentation before every element, the key written
  as an escaped JSON string followed by a colon and one space, and
  the closing bracket on its own line.

* The filesystem and the Tauri host are embedded as explicit state
  (FileState) plus an oracle of injected primitive outcomes
  (IoBehavior, AppEnv), so that every error branch of the Rust code
  is reachable in the model.
-/

namespace ParkOS

/-- Embedding of serde_json::Value (integer-only numbers; object
fields kept as a key-sorted association list, the iteration order of
the underlying BTreeMap). -/
inductive Json where
  | null : Json
  | bool (b : Bool) : Json
  | num (n : Int) : Json
  | str (s : String) : Json
  | arr (items : List Json) : Json
  | obj (fields : List (String × Json)) : Json
deriving Repr

/-- Induction over Json that descends into array elements and object
field values, packaged for the nested list occurrences. -/
theorem Json.indOn (motive : Json → Prop)
    (hnull : motive .null)
    (hbool : ∀ b, motive (.bool b))
    (hnum : ∀ n, motive (.num n))
    (hstr : ∀ s, motive (.str s))
    (harr : ∀ xs, (∀ x ∈ xs, motive x) → motive (.arr xs))
    (hobj : ∀ fs, (∀ p ∈ fs, motive p.2) → motive (.obj fs)) :
    ∀ v, motive v := by
  intro v
  have H : ∀ n (w : Json), sizeOf w ≤ n → motive w := by
    intro n
    induction n with
    | zero => intro w hw; cases w <;> simp_all
    | succ n ih =>
      intro w hw
      cases w with
      | null => exact hnull
      | bool b => exact hbool b
      | num m => exact hnum m
      | str s => exact hstr s
      | arr xs =>
        refine harr xs ?_
        intro x hx
        refine ih x ?_
        have h1 := List.sizeOf_lt_of_mem hx
        simp only [Json.arr.sizeOf_spec] at hw
        omega
      | obj fs =>
        refine hobj fs ?_
        intro p hp
        refine ih p.2 ?_
        have h1 := List.sizeOf_lt_of_mem hp
        have h2 : sizeOf p.2 < sizeOf p := by
          obtain ⟨a, b⟩ := p
          simp only [Prod.mk.sizeOf_spec]
          omega
        simp only [Json.obj.sizeOf_spec] at hw
        omega
  exact H (sizeOf v) v le_rfl

mutual

/-- Structural boolean equality on Json. -/
def beqJ : Json → Json → Bool
  | .null, .null => true
  | .bool a, .bool b => a == b
  | .num a, .num b => a == b
  | .str a, .str b => a == b
  | .arr a, .arr b => beqL a b
  | .obj a, .obj b => beqF a b
  | _, _ => false

/-- Structural boolean equality on Json lists. -/
def beqL : List Json → List Json → Bool
  | [], [] => true
  | x :: xs, y :: ys => beqJ x y && beqL xs ys
  | _, _ => false

/-- Structural boolean equality on Json field lists. -/
def beqF : List (String × Json) → List (String × Json) → Bool
  | [], [] => true
  | (k, v) :: xs, (k2, v2) :: ys => k == k2 && beqJ v v2 && beqF xs ys
  | _, _ => false

end

mutual

theorem beqJ_iff : ∀ a b : Json, beqJ a b = true ↔ a = b
  | .null, b => by cases b <;> simp [beqJ]
  | .bool x, b => by cases b <;> simp [beqJ]
  | .num x, b => by cases b <;> simp [beqJ]
  | .str x, b => by cases b <;> simp [beqJ]
  | .arr xs, b => by
    cases b <;> simp only [beqJ, Bool.false_eq_true, false_iff, ne_eq, reduceCtorEq,
      not_false_eq_true, Json.arr.injEq]
    exact (beqL_iff xs _)
  | .obj fs, b => by
    cases b <;> simp only [beqJ, Bool.false_eq_true, false_iff, ne_eq, reduceCtorEq,
      not_false_eq_true, Json.obj.injEq]
    exact (beqF_iff fs _)

theorem beqL_iff : ∀ a b : List Json, beqL a b = true ↔ a = b
  | [], b => by cases b <;> simp [beqL]
  | x :: xs, [] => by simp [beqL]
  | x :: xs, y :: ys => by
    simp [beqL, beqJ_iff x y, beqL_iff xs ys]

theorem beqF_iff : ∀ a b : List (String × Json), beqF a b = true ↔ a = b
  | [], b => by cases b <;> simp [beqF]
  | x :: xs, [] => by simp [beqF]
  | (k, v) :: xs, (k2, v2) :: ys => by
    simp only [beqF, Bool.and_eq_true, beq_iff_eq, beqJ_iff v v2, beqF_iff xs ys,
      List.cons.injEq, Prod.mk.injEq]

end

instance : DecidableEq Json := fun a b => decidable_of_iff _ (beqJ_iff a b)

/-- Lexicographic order on char lists: the order of Rust String
(byte-wise on UTF-8, which agrees with scalar-value order). -/
def charListLt : List Char → List Char → Bool
  | [], [] => false
  | [], _ :: _ => true
  | _ :: _, [] => false
  | a :: as, b :: bs => decide (a < b) || (decide (a = b) && charListLt as bs)

/-- String order used by the BTreeMap backing serde_json::Map. -/
def strLt (a b : String) : Bool := charListLt a.data b.data

theorem charListLt_irrefl : ∀ as, charListLt as as = false
  | [] => rfl
  | a :: as => by simp [charListLt, charListLt_irrefl as]

theorem charListLt_trans :
    ∀ as bs cs, charListLt as bs = true → charListLt bs cs = true →
      charListLt as cs = true
  | [], _ :: _, _ :: _, _, _ => rfl
  | a :: as, b :: bs, c :: cs, h1, h2 => by
    simp only [charListLt, Bool.or_eq_true, Bool.and_eq_true, decide_eq_true_eq] at *
    rcases h1 with h1 | ⟨rfl, h1⟩
    · rcases h2 with h2 | ⟨rfl, h2⟩
      · exact Or.inl (lt_trans h1 h2)
      · exact Or.inl h1
    · rcases h2 with h2 | ⟨rfl, h2⟩
      · exact Or.inl h2
      · exact Or.inr ⟨rfl, charListLt_trans as bs cs h1 h2⟩

theorem charListLt_total :
    ∀ as bs, charListLt as bs = true ∨ as = bs ∨ charListLt bs as = true
  | [], [] => Or.inr (Or.inl rfl)
  | [], _ :: _ => Or.inl rfl
  | _ :: _, [] => Or.inr (Or.inr rfl)
  | a :: as, b :: bs => by
    simp only [charListLt, Bool.or_eq_true, Bool.and_eq_true, decide_eq_true_eq]
    rcases lt_trichotomy a b with h | rfl | h
    · exact Or.inl (Or.inl h)
    · rcases charListLt_total as bs with h | rfl | h
      · exact Or.inl (Or.inr ⟨rfl, h⟩)
      · exact Or.inr (Or.inl rfl)
      · exact Or.inr (Or.inr (Or.inr ⟨rfl, h⟩))
    · exact Or.inr (Or.inr (Or.inl h))

theorem charListLt_asymm :
    ∀ as bs, charListLt as bs = true → charListLt bs as = false := by
  intro as bs h
  by_contra hc
  simp only [Bool.not_eq_false] at hc
  have h2 := charListLt_trans as bs as h hc
  rw [charListLt_irrefl] at h2
  exact Bool.false_ne_true h2

theorem strLt_trans {a b c : String} (h1 : strLt a b = true)
    (h2 : strLt b c = true) : strLt a c = true :=
  charListLt_trans _ _ _ h1 h2

theorem strLt_asymm {a b : String} (h : strLt a b = true) :
    strLt b a = false :=
  charListLt_asymm _ _ h

theorem strLt_irrefl (a : String) : strLt a a = false :=
  charListLt_irrefl _

theorem strLt_total (a b : String) :
    strLt a b = true ∨ a = b ∨ strLt b a = true := by
  rcases charListLt_total a.data b.data with h | h | h
  · exact Or.inl h
  · refine Or.inr (Or.inl ?_)
    cases a; cases b
    exact congrArg String.mk (by simpa using h)
  · exact Or.inr (Or.inr h)

/-- BTreeMap insert on the sorted association list: keeps ascending
key order, replaces the value when the key is already present. -/
def insertField (k : String) (v : Json) :
    List (String × Json) → List (String × Json)
  | [] => [(k, v)]
  | (k2, v2) :: fs =>
    if strLt k k2 then (k, v) :: (k2, v2) :: fs
    else if k = k2 then (k, v) :: fs
    else (k2, v2) :: insertField k v fs

/-- All keys of the field list are strictly above k. -/
def keyLtAll (k : String) : List (String × Json) → Bool
  | [] => true
  | (k2, _) :: fs => strLt k k2 && keyLtAll k fs

mutual

/-- A Json value is canonical when every object in it is key-sorted
strictly ascending; exactly the shape serde_json::from_str produces. -/
def canonJ : Json → Bool
  | .null => true
  | .bool _ => true
  | .num _ => true
  | .str _ => true
  | .arr xs => canonL xs
  | .obj fs => canonF fs

/-- Canonicity for array element lists. -/
def canonL : List Json → Bool
  | [] => true
  | x :: xs => canonJ x && canonL xs

/-- Canonicity for object field lists: sorted keys, canonical values. -/
def canonF : List (String × Json) → Bool
  | [] => true
  | (k, v) :: fs => canonJ v && keyLtAll k fs && canonF fs

end

mutual

/-- Fuel bookkeeping size of a Json value, an upper bound on the
parser fuel needed to reparse its printed form. -/
def sizeJ : Json → Nat
  | .null => 1
  | .bool _ => 1
  | .num _ => 1
  | .str _ => 1
  | .arr xs => 1 + sizeL xs
  | .obj fs => 1 + sizeF fs

/-- Fuel bookkeeping size for array element lists. -/
def sizeL : List Json → Nat
  | [] => 1
  | x :: xs => 2 + sizeJ x + sizeL xs

/-- Fuel bookkeeping size for object field lists. -/
def sizeF : List (String × Json) → Nat
  | [] => 1
  | (_, v) :: fs => 2 + sizeJ v + sizeF fs

end

/-- Decimal digit character, 48 is the code of the zero digit. -/
def digitChar (n : Nat) : Char := Char.ofNat (48 + n)

/-- Fuel-indexed most-significant-first decimal digit printer
(accumulator style, as itoa produces). -/
def natDigitsAux : Nat → Nat → List Char → List Char
  | 0, _, acc => acc
  | fuel + 1, n, acc =>
    if n < 10 then digitChar n :: acc
    else natDigitsAux fuel (n / 10) (digitChar (n % 10) :: acc)

/-- Decimal digits of a natural number, no leading zeros. -/
def natDigits (n : Nat) : List Char := natDigitsAux (n + 1) n []

/-- Decimal rendering of an integer, as the Rust integer Display
used by serde_json for integral numbers. -/
def intChars (n : Int) : List Char :=
  if n < 0 then '-' :: natDigits n.natAbs else natDigits n.toNat

/-- Lowercase hexadecimal digit, as in the serde escape table. -/
def hexDigitChar (n : Nat) : Char :=
  if n < 10 then Char.ofNat (48 + n) else Char.ofNat (87 + n)

/-- The serde_json character escape: quote, backslash and the named
control escapes, a lowercase u-escape for other control characters,
every other character written as itself. -/
def escapeChar (c : Char) : List Char :=
  if c = '"' then ['\\', '"']
  else if c = '\\' then ['\\', '\\']
  else if c = '\x08' then ['\\', 'b']
  else if c = '\x0c' then ['\\', 'f']
  else if c = '\n' then ['\\', 'n']
  else if c = '\r' then ['\\', 'r']
  else if c = '\t' then ['\\', 't']
  else if c.toNat < 32 then
    ['\\', 'u', '0', '0', hexDigitChar (c.toNat / 16), hexDigitChar (c.toNat % 16)]
  else [c]

/-- Escape every character of a string body. -/
def escapeList : List Char → List Char
  | [] => []
  | c :: cs => escapeChar c ++ escapeList cs

/-- A JSON string token: quote, escaped body, quote. -/
def keyChars (k : String) : List Char := '"' :: (escapeList k.data ++ ['"'])

/-- Two-space indentation of the serde PrettyFormatter. -/
def indChars (d : Nat) : List Char := List.replicate (2 * d) ' '

mutual

/-- Embedding of serde_json::to_string_pretty at nesting depth d:
every element on its own line, two-space indent, closing bracket on
its own line, key and value separated by a colon and one space. -/
def prettyV : Json → Nat → List Char
  | .null, _ => ['n', 'u', 'l', 'l']
  | .bool true, _ => ['t', 'r', 'u', 'e']
  | .bool false, _ => ['f', 'a', 'l', 's', 'e']
  | .num n, _ => intChars n
  | .str s, _ => keyChars s
  | .arr [], _ => ['[', ']']
  | .arr (x :: xs), d =>
    '[' :: '\n' :: (indChars (d + 1) ++ prettyV x (d + 1) ++ sepItems xs (d + 1) ++
      '\n' :: (indChars d ++ [']']))
  | .obj [], _ => ['\x7b', '\x7d']
  | .obj ((k, v) :: fs), d =>
    '\x7b' :: '\n' :: (indChars (d + 1) ++ keyChars k ++ ':' :: ' ' ::
      (prettyV v (d + 1) ++ sepFields fs (d + 1) ++ '\n' :: (indChars d ++ ['\x7d'])))

/-- Trailing array elements, each preceded by a comma, newline and
indentation. -/
def sepItems : List Json → Nat → List Char
  | [], _ => []
  | x :: xs, d => ',' :: '\n' :: (indChars d ++ prettyV x d ++ sepItems xs d)

/-- Trailing object fields, each preceded by a comma, newline and
indentation. -/
def sepFields : List (String × Json) → Nat → List Char
  | [], _ => []
  | (k, v) :: fs, d =>
    ',' :: '\n' :: (indChars d ++ keyChars k ++ ':' :: ' ' ::
      (prettyV v d ++ sepFields fs d))

end

/-- Embedding of serde_json::to_string_pretty. -/
def prettyPrint (v : Json) : String := String.mk (prettyV v 0)

example : prettyPrint (.num 120) = "120" := rfl

example : prettyPrint (.num (-45)) = "-45" := rfl

example : prettyPrint (.str "a\"b") = "\"a\\\"b\"" := rfl

example : prettyPrint (.arr [.num 1, .null]) = "[\n  1,\n  null\n]" := rfl

example :
    prettyPrint (.obj [("a", .num 1), ("b", .arr [])]) =
      "\x7b\n  \"a\": 1,\n  \"b\": []\n\x7d" := rfl

example :
    prettyPrint (.arr [.arr [.bool true]]) = "[\n  [\n    true\n  ]\n]" := rfl

/-- JSON whitespace accepted by serde between tokens. -/
def isWsChar (c : Char) : Bool :=
  c = ' ' || c = '\n' || c = '\r' || c = '\t'

/-- Skip leading whitespace. -/
def skipWs : List Char → List Char
  | [] => []
  | c :: cs => if isWsChar c then skipWs cs else c :: cs

/-- Value of one hexadecimal digit, either case. -/
def hexVal (c : Char) : Option Nat :=
  if 48 ≤ c.toNat ∧ c.toNat ≤ 57 then some (c.toNat - 48)
  else if 97 ≤ c.toNat ∧ c.toNat ≤ 102 then some (c.toNat - 87)
  else if 65 ≤ c.toNat ∧ c.toNat ≤ 70 then some (c.toNat - 55)
  else none

mutual

/-- String body parser, called after the opening quote: collects
characters up to the closing quote, rejecting raw control characters
and undefined escapes, decoding the serde escape set. -/
def parseStrAux : List Char → List Char → Option (List Char × List Char)
  | [], _ => none
  | c :: rest, acc =>
    if c = '"' then some (acc.reverse, rest)
    else if c = '\\' then parseEsc rest acc
    else if c.toNat < 32 then none
    else parseStrAux rest (c :: acc)

/-- Escape decoder, called after a backslash: the named serde
escapes and the four-digit u-escape (lone surrogate code points are
rejected; surrogate pairs for supplementary characters are not
modelled, the printer never emits them). -/
def parseEsc : List Char → List Char → Option (List Char × List Char)
  | '"' :: r, acc => parseStrAux r ('"' :: acc)
  | '\\' :: r, acc => parseStrAux r ('\\' :: acc)
  | '/' :: r, acc => parseStrAux r ('/' :: acc)
  | 'b' :: r, acc => parseStrAux r ('\x08' :: acc)
  | 'f' :: r, acc => parseStrAux r ('\x0c' :: acc)
  | 'n' :: r, acc => parseStrAux r ('\n' :: acc)
  | 'r' :: r, acc => parseStrAux r ('\r' :: acc)
  | 't' :: r, acc => parseStrAux r ('\t' :: acc)
  | 'u' :: h1 :: h2 :: h3 :: h4 :: r, acc =>
    match hexVal h1, hexVal h2, hexVal h3, hexVal h4 with
    | some a, some b, some c3, some d =>
      let code := ((a * 16 + b) * 16 + c3) * 16 + d
      if 55296 ≤ code ∧ code ≤ 57343 then none
      else parseStrAux r (Char.ofNat code :: acc)
    | _, _, _, _ => none
  | _, _ => none

end

/-- Accumulate decimal digits into a natural number. -/
def digitsToNatAux : List Char → Nat → Nat
  | [], n => n
  | c :: cs, n => digitsToNatAux cs (n * 10 + (c.toNat - 48))

/-- Integer literal parser with the JSON leading-zero rule: a zero
digit ends the literal immediately, otherwise all following digits
are consumed. -/
def parseNum : List Char → Option (Nat × List Char)
  | [] => none
  | c :: rest =>
    if c = '0' then some (0, rest)
    else if c.isDigit then
      some (digitsToNatAux (rest.takeWhile Char.isDigit) (c.toNat - 48),
        rest.dropWhile Char.isDigit)
    else none

mutual

/-- Embedding of the serde_json value parser: skip whitespace, then
dispatch on the first character, as serde parse_value does.  Fuel
decreases at every nesting step; Json.parse supplies enough fuel for
any input it can accept. -/
def parseVal : Nat → List Char → Option (Json × List Char)
  | 0, _ => none
  | fuel + 1, cs =>
    match skipWs cs with
    | [] => none
    | c :: r =>
      if c = 'n' then
        match r with
        | 'u' :: 'l' :: 'l' :: r2 => some (.null, r2)
        | _ => none
      else if c = 't' then
        match r with
        | 'r' :: 'u' :: 'e' :: r2 => some (.bool true, r2)
        | _ => none
      else if c = 'f' then
        match r with
        | 'a' :: 'l' :: 's' :: 'e' :: r2 => some (.bool false, r2)
        | _ => none
      else if c = '"' then
        match parseStrAux r [] with
        | some (body, r2) => some (.str (String.mk body), r2)
        | none => none
      else if c = '-' then
        match parseNum r with
        | some (n, r2) => some (.num (-(n : Int)), r2)
        | none => none
      else if c = '[' then
        match skipWs r with
        | [] => none
        | c2 :: r2 =>
          if c2 = ']' then some (.arr [], r2)
          else
            match parseVal fuel (c2 :: r2) with
            | some (v, r3) => parseArrTail fuel r3 [v]
            | none => none
      else if c = '\x7b' then
        match skipWs r with
        | [] => none
        | c2 :: r2 =>
          if c2 = '\x7d' then some (.obj [], r2)
          else parseObjEntry fuel (c2 :: r2) []
      else if c.isDigit then
        match parseNum (c :: r) with
        | some (n, r2) => some (.num (n : Int), r2)
        | none => none
      else none

/-- Array continuation after one element: a comma followed by the
next element, or the closing bracket. -/
def parseArrTail : Nat → List Char → List Json → Option (Json × List Char)
  | 0, _, _ => none
  | fuel + 1, cs, acc =>
    match skipWs cs with
    | [] => none
    | c :: r =>
      if c = ',' then
        match parseVal fuel r with
        | some (v, r2) => parseArrTail fuel r2 (acc ++ [v])
        | none => none
      else if c = ']' then some (.arr acc, r)
      else none

/-- One object entry: a quoted key, a colon, a value; the entry is
inserted into the accumulated map as BTreeMap insert does. -/
def parseObjEntry : Nat → List Char → List (String × Json) →
    Option (Json × List Char)
  | 0, _, _ => none
  | fuel + 1, cs, acc =>
    match skipWs cs with
    | [] => none
    | c :: r =>
      if c = '"' then
        match parseStrAux r [] with
        | some (body, r2) =>
          match skipWs r2 with
          | [] => none
          | c2 :: r3 =>
            if c2 = ':' then
              match parseVal fuel r3 with
              | some (v, r4) =>
                parseObjTail fuel r4 (insertField (String.mk body) v acc)
              | none => none
            else none
        | none => none
      else none

/-- Object continuation after one entry: a comma followed by the
next entry, or the closing brace. -/
def parseObjTail : Nat → List Char → List (String × Json) →
    Option (Json × List Char)
  | 0, _, _ => none
  | fuel + 1, cs, acc =>
    match skipWs cs with
    | [] => none
    | c :: r =>
      if c = ',' then parseObjEntry fuel r acc
      else if c = '\x7d' then some (.obj acc, r)
      else none

end

/-- Embedding of serde_json::from_str for serde_json::Value: parse
one value, then require that only whitespace remains. -/
def Json.parse (s : String) : Option Json :=
  match parseVal (s.data.length + 1) s.data with
  | some (v, r) => if skipWs r = [] then some v else none
  | none => none

example : Json.parse "null" = some .null := rfl

example : Json.parse "  -12  " = some (.num (-12)) := rfl

example : Json.parse "01" = none := rfl

example : Json.parse "\x7bnot json" = none := rfl

example : Json.parse "[1, [true, \"a\"], \x7b\x7d]" =
    some (.arr [.num 1, .arr [.bool true, .str "a"], .obj []]) := rfl

example : Json.parse "\x7b\"b\": 1, \"a\": 2\x7d" =
    some (.obj [("a", .num 2), ("b", .num 1)]) := rfl

example : Json.parse "\x7b\"a\": 1, \"a\": 2\x7d" =
    some (.obj [("a", .num 2)]) := rfl

example : Json.parse "\"a\\u0041\\n\"" = some (.str "aA\n") := rfl

example : Json.parse "[1,]" = none := rfl

example : Json.parse "[1] extra" = none := rfl

example :
    Json.parse (prettyPrint (.obj [("a", .num 1), ("b", .arr [.null, .str "x"])])) =
      some (.obj [("a", .num 1), ("b", .arr [.null, .str "x"])]) := rfl

/-- Error category of the spec (section 7); the Rust code returns
plain strings whose fixed prefixes identify the failing step, the
kind tag records that classification. -/
inductive ErrorKind where
  | pathResolution : ErrorKind
  | ioError : ErrorKind
  | parseError : ErrorKind
deriving DecidableEq, Repr

/-- An error of the store: its spec kind and the message string the
Rust code builds with format!. -/
structure StoreError where
  kind : ErrorKind
  message : String
deriving DecidableEq, Repr

instance {ε α : Type} [DecidableEq ε] [DecidableEq α] : DecidableEq (Except ε α) :=
  fun a b =>
  match a, b with
  | .error e1, .error e2 =>
    if h : e1 = e2 then isTrue (by rw [h])
    else isFalse (by intro hc; cases hc; exact h rfl)
  | .ok x, .ok y =>
    if h : x = y then isTrue (by rw [h])
    else isFalse (by intro hc; cases hc; exact h rfl)
  | .error _, .ok _ => isFalse (by intro hc; cases hc)
  | .ok _, .error _ => isFalse (by intro hc; cases hc)

/-- The Tauri host capability consumed by the store: the result of
app.path().app_data_dir(), either the directory or an error cause. -/
structure AppEnv where
  appDataDir : Except String String
deriving DecidableEq, Repr

/-- Injected outcomes of the filesystem primitives, making every
error branch of the Rust code reachable: some cause means the
corresponding call fails with that cause, none means it succeeds.
createMode is the host default permission mode given to a newly
created file (umask dependent). -/
structure IoBehavior where
  readFails : Option String
  mkdirFails : Option String
  writeFails : Option String
  chmodFails : Option String
  createMode : Nat
deriving DecidableEq, Repr

/-- State of the store on disk: whether the app data directory
exists, the contents of payment_profile.json when present, and its
permission mode bits when present. -/
structure FileState where
  dirExists : Bool
  contents : Option String
  mode : Option Nat
deriving DecidableEq, Repr

/-- Embedding of payment_profile_path: push the fixed file name onto
the host-resolved app data directory, or fail with the
path-resolution message. -/
def payment_profile_path (env : AppEnv) : Except StoreError String :=
  match env.appDataDir with
  | .error e =>
    .error ⟨.pathResolution, "Failed to resolve app data directory: " ++ e⟩
  | .ok dir => .ok (dir ++ "/payment_profile.json")

/-- Stand-in for the serde_json parse error cause interpolated into
the save error message (the serde message text itself is not
modelled, only the fixed prefix and the error kind are). -/
def parseFailureCause : String := "invalid JSON"

/-- Embedding of load_payment_profile_blob: resolve the path; a
missing file is the successful empty result; otherwise read the raw
text and return it.  The Rust body performs no write, so the file
state is returned unchanged on every branch. -/
def load_payment_profile_blob (env : AppEnv) (io2 : IoBehavior)
    (fs : FileState) : Except StoreError (Option String) × FileState :=
  match payment_profile_path env with
  | .error e => (.error e, fs)
  | .ok _ =>
    match fs.contents with
    | none => (.ok none, fs)
    | some raw =>
      match io2.readFails with
      | some cause =>
        (.error ⟨.ioError, "Failed to read payment profile file: " ++ cause⟩, fs)
      | none => (.ok (some raw), fs)

/-- Embedding of save_payment_profile_blob: resolve the path, create
the parent directory, parse the blob as JSON, serialize it pretty,
write the file, then restrict the permissions to owner read/write
(the cfg unix branch).  fs::write keeps the mode of an existing
file and gives a new file the host default mode. -/
def save_payment_profile_blob (env : AppEnv) (io2 : IoBehavior)
    (fs : FileState) (blob : String) : Except StoreError Unit × FileState :=
  match payment_profile_path env with
  | .error e => (.error e, fs)
  | .ok _ =>
    match io2.mkdirFails with
    | some cause =>
      (.error ⟨.ioError, "Failed to create payment profile directory: " ++ cause⟩, fs)
    | none =>
      let fs1 : FileState := { fs with dirExists := true }
      match Json.parse blob with
      | none =>
        (.error ⟨.parseError,
          "Failed to parse payment profile blob JSON: " ++ parseFailureCause⟩, fs1)
      | some parsed =>
        let serialized := prettyPrint parsed
        match io2.writeFails with
        | some cause =>
          (.error ⟨.ioError, "Failed to write payment profile file: " ++ cause⟩, fs1)
        | none =>
          let newMode : Nat :=
            match fs.contents, fs.mode with
            | some _, some m => m
            | _, _ => io2.createMode
          let fs2 : FileState :=
            { fs1 with contents := some serialized, mode := some newMode }
          match io2.chmodFails with
          | some cause =>
            (.error ⟨.ioError,
              "Failed to set payment profile file permissions: " ++ cause⟩, fs2)
          | none => (.ok (), { fs2 with mode := some 0o600 })

/-- The error kind of a result, none on success. -/
def errKind {α : Type} : Except StoreError α → Option ErrorKind
  | .error e => some e.kind
  | .ok _ => none

/-- Host and oracle fixtures used by the concrete witnesses. -/
def ioOk : IoBehavior := ⟨none, none, none, none, 420⟩

/-- Host environment that resolves the app data directory. -/
def envOk : AppEnv := ⟨Except.ok "/data/app"⟩

/-- Host environment that cannot supply the app data directory. -/
def envBad : AppEnv := ⟨Except.error "sandbox denied"⟩

/-- Store state with no file and no directory. -/
def fsEmpty : FileState := ⟨false, none, none⟩

/-- Store state whose file holds text that is not JSON. -/
def fsInvalid : FileState := ⟨true, some "\x7bnot json", some 384⟩

/-- C3: when the stored file does not exist, load returns the
successful empty result, not an error. -/
theorem load_missing_file_returns_none (env : AppEnv) (io2 : IoBehavior)
    (fs : FileState) (d : String) (henv : env.appDataDir = .ok d)
    (hfs : fs.contents = none) :
    (load_payment_profile_blob env io2 fs).1 = .ok none := by
  simp [load_payment_profile_blob, payment_profile_path, henv, hfs]

/-- C3 witness: a fresh store returns the empty result. -/
theorem load_missing_file_returns_none_witness :
    (load_payment_profile_blob envOk ioOk fsEmpty).1 = .ok none :=
  load_missing_file_returns_none envOk ioOk fsEmpty "/data/app" rfl rfl

/-- C2 counterexample: with invalid JSON text stored, load succeeds
and returns the raw contents verbatim; it does not fail with a parse
error as the claim requires (the code never parses on load). -/
theorem load_invalid_json_cex :
    (load_payment_profile_blob envOk ioOk fsInvalid).1 = .ok (some "\x7bnot json") ∧
    Json.parse "\x7bnot json" = none ∧
    errKind (load_payment_profile_blob envOk ioOk fsInvalid).1 = none :=
  ⟨rfl, rfl, rfl⟩

/-- C2 amended: when the stored file exists and the read succeeds,
load returns its raw contents verbatim, without any JSON validation;
text that is not valid JSON is returned as a successful result
rather than rejected with a parse error. -/
theorem load_returns_raw_contents (env : AppEnv) (io2 : IoBehavior)
    (fs : FileState) (d raw : String) (henv : env.appDataDir = .ok d)
    (hfs : fs.contents = some raw) (hread : io2.readFails = none) :
    (load_payment_profile_blob env io2 fs).1 = .ok (some raw) := by
  simp [load_payment_profile_blob, payment_profile_path, henv, hfs, hread]

/-- C2 amended witness: the invalid stored text comes back verbatim. -/
theorem load_returns_raw_contents_witness :
    (load_payment_profile_blob envOk ioOk fsInvalid).1 = .ok (some "\x7bnot json") :=
  load_returns_raw_contents envOk ioOk fsInvalid "/data/app" "\x7bnot json" rfl rfl rfl

/-- C4: saving text that does not parse as JSON fails with the parse
error and leaves the stored file (contents and mode) untouched. -/
theorem save_invalid_json_parse_error_preserves_file (env : AppEnv)
    (io2 : IoBehavior) (fs : FileState) (blob d : String)
    (henv : env.appDataDir = .ok d) (hmk : io2.mkdirFails = none)
    (hparse : Json.parse blob = none) :
    (save_payment_profile_blob env io2 fs blob).1 =
      .error ⟨.parseError, "Failed to parse payment profile blob JSON: " ++ parseFailureCause⟩ ∧
    (save_payment_profile_blob env io2 fs blob).2.contents = fs.contents ∧
    (save_payment_profile_blob env io2 fs blob).2.mode = fs.mode := by
  refine ⟨?_, ?_, ?_⟩ <;>
    simp [save_payment_profile_blob, payment_profile_path, henv, hmk, hparse]

/-- C4 witness: saving the invalid text over a stored profile fails
with the parse error and leaves the file bytes unchanged. -/
theorem save_invalid_json_parse_error_preserves_file_witness :
    (save_payment_profile_blob envOk ioOk fsInvalid "\x7bnot json").1 =
      .error ⟨.parseError, "Failed to parse payment profile blob JSON: " ++ parseFailureCause⟩ ∧
    (save_payment_profile_blob envOk ioOk fsInvalid "\x7bnot json").2.contents =
      fsInvalid.contents ∧
    (save_payment_profile_blob envOk ioOk fsInvalid "\x7bnot json").2.mode =
      fsInvalid.mode :=
  save_invalid_json_parse_error_preserves_file envOk ioOk fsInvalid
    "\x7bnot json" "/data/app" rfl rfl rfl

/-- C5: a successful save stores exactly the pretty-printed
re-serialization of the parsed value, and any two inputs that parse
to the same value produce the identical save outcome, hence
identical on-disk bytes. -/
theorem save_writes_canonical_pretty_json (env : AppEnv) (io2 : IoBehavior)
    (fs : FileState) (blob : String) :
    ((save_payment_profile_blob env io2 fs blob).1 = .ok () →
      ∃ v, Json.parse blob = some v ∧
        (save_payment_profile_blob env io2 fs blob).2.contents =
          some (prettyPrint v)) ∧
    (∀ blob2 v, Json.parse blob = some v → Json.parse blob2 = some v →
      save_payment_profile_blob env io2 fs blob =
        save_payment_profile_blob env io2 fs blob2) := by
  constructor
  · intro h
    cases henv : env.appDataDir with
    | error e => simp [save_payment_profile_blob, payment_profile_path, henv] at h
    | ok d =>
      cases hmk : io2.mkdirFails with
      | some c => simp [save_payment_profile_blob, payment_profile_path, henv, hmk] at h
      | none =>
        cases hp : Json.parse blob with
        | none => simp [save_payment_profile_blob, payment_profile_path, henv, hmk, hp] at h
        | some v =>
          refine ⟨v, rfl, ?_⟩
          cases hw : io2.writeFails with
          | some c =>
            simp [save_payment_profile_blob, payment_profile_path, henv, hmk, hp, hw] at h
          | none =>
            cases hc : io2.chmodFails with
            | some c =>
              simp [save_payment_profile_blob, payment_profile_path, henv, hmk, hp, hw, hc] at h
            | none =>
              simp [save_payment_profile_blob, payment_profile_path, henv, hmk, hp, hw, hc]
  · intro blob2 v h1 h2
    unfold save_payment_profile_blob
    rw [h1, h2]

/-- C5 witness: two different spellings of the same object save
identical state, and the stored bytes are the canonical form. -/
theorem save_writes_canonical_pretty_json_witness :
    ((save_payment_profile_blob envOk ioOk fsEmpty "\x7b\"a\":1,  \"b\":2\x7d").1 = .ok () →
      ∃ v, Json.parse "\x7b\"a\":1,  \"b\":2\x7d" = some v ∧
        (save_payment_profile_blob envOk ioOk fsEmpty "\x7b\"a\":1,  \"b\":2\x7d").2.contents =
          some (prettyPrint v)) ∧
    (Json.parse "\x7b\"a\":1,  \"b\":2\x7d" = some (.obj [("a", .num 1), ("b", .num 2)]) →
      Json.parse "\x7b\"b\": 2, \"a\": 1\x7d" = some (.obj [("a", .num 1), ("b", .num 2)]) →
      save_payment_profile_blob envOk ioOk fsEmpty "\x7b\"a\":1,  \"b\":2\x7d" =
        save_payment_profile_blob envOk ioOk fsEmpty "\x7b\"b\": 2, \"a\": 1\x7d") :=
  ⟨(save_writes_canonical_pretty_json envOk ioOk fsEmpty "\x7b\"a\":1,  \"b\":2\x7d").1,
   fun h1 h2 =>
    (save_writes_canonical_pretty_json envOk ioOk fsEmpty "\x7b\"a\":1,  \"b\":2\x7d").2
      "\x7b\"b\": 2, \"a\": 1\x7d" (.obj [("a", .num 1), ("b", .num 2)]) h1 h2⟩

/-- C6: after a successful save, saving the same blob again succeeds
and reproduces the identical file state, hence byte-identical
contents. -/
theorem save_idempotent (env : AppEnv) (io2 : IoBehavior) (fs : FileState)
    (blob : String)
    (h : (save_payment_profile_blob env io2 fs blob).1 = .ok ()) :
    (save_payment_profile_blob env io2
        (save_payment_profile_blob env io2 fs blob).2 blob).1 = .ok () ∧
    (save_payment_profile_blob env io2
        (save_payment_profile_blob env io2 fs blob).2 blob).2 =
      (save_payment_profile_blob env io2 fs blob).2 := by
  cases henv : env.appDataDir with
  | error e => simp [save_payment_profile_blob, payment_profile_path, henv] at h
  | ok d =>
    cases hmk : io2.mkdirFails with
    | some c => simp [save_payment_profile_blob, payment_profile_path, henv, hmk] at h
    | none =>
      cases hp : Json.parse blob with
      | none => simp [save_payment_profile_blob, payment_profile_path, henv, hmk, hp] at h
      | some v =>
        cases hw : io2.writeFails with
        | some c =>
          simp [save_payment_profile_blob, payment_profile_path, henv, hmk, hp, hw] at h
        | none =>
          cases hc : io2.chmodFails with
          | some c =>
            simp [save_payment_profile_blob, payment_profile_path, henv, hmk, hp, hw, hc] at h
          | none =>
            refine ⟨?_, ?_⟩ <;>
              simp [save_payment_profile_blob, payment_profile_path, henv, hmk, hp, hw, hc]

/-- C6 witness: a concrete double save reproduces the same state. -/
theorem save_idempotent_witness :
    (save_payment_profile_blob envOk ioOk
        (save_payment_profile_blob envOk ioOk fsEmpty "[1]").2 "[1]").1 = .ok () ∧
    (save_payment_profile_blob envOk ioOk
        (save_payment_profile_blob envOk ioOk fsEmpty "[1]").2 "[1]").2 =
      (save_payment_profile_blob envOk ioOk fsEmpty "[1]").2 :=
  save_idempotent envOk ioOk fsEmpty "[1]" (by decide)

/-- C7: a successful save leaves the file restricted to owner
read/write (mode 384, that is octal 600); and when the permission
step fails, the save as a whole fails with the io error even though
the serialized bytes were already written. -/
theorem save_sets_owner_only_permissions (env : AppEnv) (io2 : IoBehavior)
    (fs : FileState) (blob : String) :
    ((save_payment_profile_blob env io2 fs blob).1 = .ok () →
      (save_payment_profile_blob env io2 fs blob).2.mode = some 384) ∧
    (∀ cause d v, env.appDataDir = .ok d → io2.mkdirFails = none →
      Json.parse blob = some v → io2.writeFails = none →
      io2.chmodFails = some cause →
      (save_payment_profile_blob env io2 fs blob).1 =
        .error ⟨.ioError, "Failed to set payment profile file permissions: " ++ cause⟩ ∧
      (save_payment_profile_blob env io2 fs blob).2.contents =
        some (prettyPrint v)) := by
  constructor
  · intro h
    cases henv : env.appDataDir with
    | error e => simp [save_payment_profile_blob, payment_profile_path, henv] at h
    | ok d =>
      cases hmk : io2.mkdirFails with
      | some c => simp [save_payment_profile_blob, payment_profile_path, henv, hmk] at h
      | none =>
        cases hp : Json.parse blob with
        | none => simp [save_payment_profile_blob, payment_profile_path, henv, hmk, hp] at h
        | some v =>
          cases hw : io2.writeFails with
          | some c =>
            simp [save_payment_profile_blob, payment_profile_path, henv, hmk, hp, hw] at h
          | none =>
            cases hc : io2.chmodFails with
            | some c =>
              simp [save_payment_profile_blob, payment_profile_path, henv, hmk, hp, hw, hc] at h
            | none =>
              simp [save_payment_profile_blob, payment_profile_path, henv, hmk, hp, hw, hc]
  · intro cause d v henv hmk hp hw hc
    refine ⟨?_, ?_⟩ <;>
      simp [save_payment_profile_blob, payment_profile_path, henv, hmk, hp, hw, hc]

/-- C7 witness: a successful save at a concrete store has mode 384,
and with an injected chmod failure the same save fails with the
permission message while the bytes are on disk. -/
theorem save_sets_owner_only_permissions_witness :
    ((save_payment_profile_blob envOk ioOk fsEmpty "[1]").1 = .ok () →
      (save_payment_profile_blob envOk ioOk fsEmpty "[1]").2.mode = some 384) ∧
    ((save_payment_profile_blob envOk ⟨none, none, none, some "denied", 420⟩
        fsEmpty "[1]").1 =
      .error ⟨.ioError, "Failed to set payment profile file permissions: " ++ "denied"⟩ ∧
     (save_payment_profile_blob envOk ⟨none, none, none, some "denied", 420⟩
        fsEmpty "[1]").2.contents = some (prettyPrint (.arr [.num 1]))) :=
  ⟨(save_sets_owner_only_permissions envOk ioOk fsEmpty "[1]").1,
   (save_sets_owner_only_permissions envOk ⟨none, none, none, some "denied", 420⟩
      fsEmpty "[1]").2 "denied" "/data/app" (.arr [.num 1]) rfl rfl (by decide) rfl rfl⟩

/-- C8: the resolved path appends the fixed file name to the host
data directory, and load and save fail with the path-resolution
error exactly when the host cannot supply that directory. -/
theorem path_resolution_spec (env : AppEnv) (io2 : IoBehavior) (fs : FileState)
    (blob : String) :
    (∀ d, env.appDataDir = .ok d →
      payment_profile_path env = .ok (d ++ "/payment_profile.json")) ∧
    ((∃ e, env.appDataDir = .error e) ↔
      errKind (load_payment_profile_blob env io2 fs).1 = some .pathResolution) ∧
    ((∃ e, env.appDataDir = .error e) ↔
      errKind (save_payment_profile_blob env io2 fs blob).1 = some .pathResolution) := by
  refine ⟨?_, ?_, ?_⟩
  · intro d henv
    simp [payment_profile_path, henv]
  · cases henv : env.appDataDir with
    | error e =>
      simp [load_payment_profile_blob, payment_profile_path, henv, errKind]
    | ok d =>
      simp only [load_payment_profile_blob, payment_profile_path, henv]
      constructor
      · rintro ⟨e, he⟩; cases he
      · intro h
        exfalso
        cases hfs : fs.contents with
        | none => rw [hfs] at h; simp [errKind] at h
        | some raw =>
          rw [hfs] at h
          cases hr : io2.readFails with
          | none => rw [hr] at h; simp [errKind] at h
          | some c => rw [hr] at h; simp [errKind] at h
  · cases henv : env.appDataDir with
    | error e =>
      simp [save_payment_profile_blob, payment_profile_path, henv, errKind]
    | ok d =>
      simp only [save_payment_profile_blob, payment_profile_path, henv]
      constructor
      · rintro ⟨e, he⟩; cases he
      · intro h
        exfalso
        cases hmk : io2.mkdirFails with
        | some c => rw [hmk] at h; simp [errKind] at h
        | none =>
          rw [hmk] at h
          cases hp : Json.parse blob with
          | none => rw [hp] at h; simp [errKind] at h
          | some v =>
            rw [hp] at h
            cases hw : io2.writeFails with
            | some c => rw [hw] at h; simp [errKind] at h
            | none =>
              rw [hw] at h
              cases hc : io2.chmodFails with
              | some c => rw [hc] at h; simp [errKind] at h
              | none => rw [hc] at h; simp [errKind] at h

/-- C8 witness: with a failing host both operations report the
path-resolution kind, with a succeeding host neither does, and the
resolved path is the data directory plus the fixed file name. -/
theorem path_resolution_spec_witness :
    (payment_profile_path envOk = .ok ("/data/app" ++ "/payment_profile.json")) ∧
    ((∃ e, envBad.appDataDir = .error e) ↔
      errKind (load_payment_profile_blob envBad ioOk fsEmpty).1 = some .pathResolution) ∧
    ((∃ e, envOk.appDataDir = .error e) ↔
      errKind (save_payment_profile_blob envOk ioOk fsEmpty "[1]").1 = some .pathResolution) :=
  ⟨(path_resolution_spec envOk ioOk fsEmpty "[1]").1 "/data/app" rfl,
   (path_resolution_spec envBad ioOk fsEmpty "[1]").2.1,
   (path_resolution_spec envOk ioOk fsEmpty "[1]").2.2⟩

/-- C9: load performs no write, create or permission change: the
file state after any load is exactly the state before it. -/
theorem load_preserves_file_state (env : AppEnv) (io2 : IoBehavior)
    (fs : FileState) :
    (load_payment_profile_blob env io2 fs).2 = fs := by
  unfold load_payment_profile_blob
  cases payment_profile_path env with
  | error e => rfl
  | ok p =>
    cases fs.contents with
    | none => rfl
    | some raw =>
      cases io2.readFails with
      | none => rfl
      | some c => rfl

/-- C10: the data directory is created before the blob is validated,
so a save that fails on JSON parsing still creates the previously
missing directory while leaving the file contents unchanged. -/
theorem failed_save_creates_data_directory (env : AppEnv) (io2 : IoBehavior)
    (fs : FileState) (blob d : String) (henv : env.appDataDir = .ok d)
    (hmk : io2.mkdirFails = none) (hparse : Json.parse blob = none)
    (_hdir : fs.dirExists = false) :
    errKind (save_payment_profile_blob env io2 fs blob).1 = some .parseError ∧
    (save_payment_profile_blob env io2 fs blob).2.dirExists = true ∧
    (save_payment_profile_blob env io2 fs blob).2.contents = fs.contents := by
  refine ⟨?_, ?_, ?_⟩ <;>
    simp [save_payment_profile_blob, payment_profile_path, henv, hmk, hparse, errKind]

/-- C10 witness: on a fresh store a failed save of invalid text
leaves a newly created data directory and no file. -/
theorem failed_save_creates_data_directory_witness :
    errKind (save_payment_profile_blob envOk ioOk fsEmpty "\x7bnot json").1 =
      some .parseError ∧
    (save_payment_profile_blob envOk ioOk fsEmpty "\x7bnot json").2.dirExists = true ∧
    (save_payment_profile_blob envOk ioOk fsEmpty "\x7bnot json").2.contents =
      fsEmpty.contents :=
  failed_save_creates_data_directory envOk ioOk fsEmpty "\x7bnot json" "/data/app"
    rfl rfl rfl rfl

/-- Reference decimal printer used in proofs, recursion on the value. -/
def natDigitsRef (n : Nat) : List Char :=
  if n < 10 then [digitChar n]
  else natDigitsRef (n / 10) ++ [digitChar (n % 10)]
termination_by n
decreasing_by exact Nat.div_lt_self (by omega) (by omega)

theorem natDigitsAux_eq :
    ∀ fuel n acc, n < fuel → natDigitsAux fuel n acc = natDigitsRef n ++ acc := by
  intro fuel
  induction fuel with
  | zero => intro n acc h; omega
  | succ f ih =>
    intro n acc h
    by_cases h10 : n < 10
    · rw [natDigitsAux, if_pos h10, natDigitsRef, if_pos h10]
      rfl
    · rw [natDigitsAux, if_neg h10, natDigitsRef, if_neg h10]
      rw [ih (n / 10) (digitChar (n % 10) :: acc)
        (by have := Nat.div_lt_self (show 0 < n by omega) (show 1 < 10 by omega); omega)]
      simp

theorem natDigits_eq (n : Nat) : natDigits n = natDigitsRef n := by
  rw [natDigits, natDigitsAux_eq (n + 1) n [] (by omega)]
  simp

theorem digitChar_toNat (n : Nat) (h : n < 10) : (digitChar n).toNat = 48 + n := by
  interval_cases n <;> decide

theorem digitChar_isDigit (n : Nat) (h : n < 10) : (digitChar n).isDigit = true := by
  interval_cases n <;> decide

theorem digitChar_eq_zero_iff (n : Nat) (h : n < 10) :
    digitChar n = '0' ↔ n = 0 := by
  interval_cases n <;> simp <;> decide

theorem natDigitsRef_ne_nil (n : Nat) : natDigitsRef n ≠ [] := by
  rw [natDigitsRef]
  by_cases h : n < 10
  · simp [h]
  · simp [h]

theorem natDigitsRef_all_digits (n : Nat) :
    ∀ c ∈ natDigitsRef n, c.isDigit = true := by
  induction n using Nat.strong_induction_on with
  | _ n ih =>
    rw [natDigitsRef]
    by_cases h : n < 10
    · simp only [if_pos h, List.mem_singleton]
      rintro c rfl
      exact digitChar_isDigit n h
    · simp only [if_neg h, List.mem_append, List.mem_singleton]
      rintro c (hc | rfl)
      · exact ih (n / 10) (Nat.div_lt_self (by omega) (by omega)) c hc
      · exact digitChar_isDigit (n % 10) (Nat.mod_lt n (by omega))

theorem digitsToNatAux_append (xs ys : List Char) (a : Nat) :
    digitsToNatAux (xs ++ ys) a = digitsToNatAux ys (digitsToNatAux xs a) := by
  induction xs generalizing a with
  | nil => rfl
  | cons c cs ih => simp [digitsToNatAux, ih]

theorem digitsToNatAux_ref (n : Nat) :
    ∀ a, digitsToNatAux (natDigitsRef n) a =
      a * 10 ^ (natDigitsRef n).length + n := by
  induction n using Nat.strong_induction_on with
  | _ n ih =>
    intro a
    rw [natDigitsRef]
    by_cases h : n < 10
    · simp [h, digitsToNatAux, digitChar_toNat n h]
    · rw [if_neg h, digitsToNatAux_append,
        ih (n / 10) (Nat.div_lt_self (by omega) (by omega)) a]
      simp only [digitsToNatAux, List.length_append, List.length_singleton]
      rw [digitChar_toNat (n % 10) (Nat.mod_lt n (by omega))]
      have hdm := Nat.div_add_mod n 10
      ring_nf
      omega

/-- There is no digit at the head of the list (or it is empty). -/
def NoDigitHead (cs : List Char) : Prop :=
  ∀ c, cs.head? = some c → c.isDigit = false

theorem takeWhile_all_append (p : Char → Bool) (ds rest : List Char)
    (hds : ∀ c ∈ ds, p c = true)
    (hrest : ∀ c, rest.head? = some c → p c = false) :
    (ds ++ rest).takeWhile p = ds ∧ (ds ++ rest).dropWhile p = rest := by
  induction ds with
  | nil =>
    simp only [List.nil_append]
    cases rest with
    | nil => simp
    | cons c cs =>
      have hc := hrest c rfl
      simp [List.takeWhile, List.dropWhile, hc]
  | cons c cs ih =>
    have hc := hds c (by simp)
    have hrec := ih (fun x hx => hds x (by simp [hx]))
    simp [List.takeWhile, List.dropWhile, hc, hrec.1, hrec.2]

theorem natDigitsRef_head_ne_zero :
    ∀ n, n ≠ 0 → ∀ c ds, natDigitsRef n = c :: ds → c ≠ '0' := by
  intro n
  induction n using Nat.strong_induction_on with
  | _ n ih =>
    intro hn c ds hds
    rw [natDigitsRef] at hds
    by_cases h : n < 10
    · rw [if_pos h] at hds
      simp only [List.cons.injEq] at hds
      obtain ⟨rfl, -⟩ := hds
      intro hc
      exact hn ((digitChar_eq_zero_iff n h).mp hc)
    · rw [if_neg h] at hds
      cases hh : natDigitsRef (n / 10) with
      | nil => exact absurd hh (natDigitsRef_ne_nil _)
      | cons a as =>
        rw [hh] at hds
        simp only [List.cons_append, List.cons.injEq] at hds
        obtain ⟨rfl, -⟩ := hds
        exact ih (n / 10) (Nat.div_lt_self (by omega) (by omega))
          (by omega) a as hh

theorem parseNum_digits (n : Nat) (rest : List Char) (hrest : NoDigitHead rest) :
    parseNum (natDigits n ++ rest) = some (n, rest) := by
  rw [natDigits_eq]
  by_cases h0 : n = 0
  · subst h0
    have h00 : natDigitsRef 0 = ['0'] := by
      rw [natDigitsRef]
      rw [if_pos (by omega)]
      decide
    rw [h00]
    rfl
  · cases hds : natDigitsRef n with
    | nil => exact absurd hds (natDigitsRef_ne_nil _)
    | cons c ds =>
      have hcne : c ≠ '0' := natDigitsRef_head_ne_zero n h0 c ds hds
      have hcd : c.isDigit = true :=
        natDigitsRef_all_digits n c (by rw [hds]; simp)
      have hdall : ∀ x ∈ ds, x.isDigit = true := by
        intro x hx
        exact natDigitsRef_all_digits n x (by rw [hds]; simp [hx])
      have htw := takeWhile_all_append Char.isDigit ds rest hdall
        (fun x hx => hrest x hx)
      simp only [List.cons_append, parseNum, if_neg hcne, hcd, if_pos, htw.1, htw.2]
      have hval : digitsToNatAux (c :: ds) 0 = n := by
        rw [← hds, digitsToNatAux_ref]
        simp
      simp only [digitsToNatAux] at hval
      rw [show 0 * 10 + (c.toNat - 48) = c.toNat - 48 by omega] at hval
      rw [hval]

theorem skipWs_ws_append (ws cs : List Char)
    (h : ∀ c ∈ ws, isWsChar c = true) :
    skipWs (ws ++ cs) = skipWs cs := by
  induction ws with
  | nil => rfl
  | cons c ws ih =>
    have hc := h c (by simp)
    simp only [List.cons_append, skipWs, hc, if_pos]
    exact ih (fun x hx => h x (by simp [hx]))

theorem skipWs_cons_nonWs (c : Char) (cs : List Char)
    (h : isWsChar c = false) : skipWs (c :: cs) = c :: cs := by
  simp [skipWs, h]

theorem indChars_allWs (d : Nat) : ∀ c ∈ indChars d, isWsChar c = true := by
  intro c hc
  rw [List.eq_of_mem_replicate hc]
  decide

theorem hexVal_hexDigitChar (k : Nat) (h : k < 16) :
    hexVal (hexDigitChar k) = some k := by
  interval_cases k <;> decide

theorem stringMk_data (s : String) : String.mk s.data = s := by
  cases s
  rfl

theorem parseEsc_u (a b : Nat) (ha : a < 16) (hb : b < 16)
    (r acc : List Char) :
    parseEsc ('u' :: '0' :: '0' :: hexDigitChar a :: hexDigitChar b :: r) acc =
      parseStrAux r (Char.ofNat (a * 16 + b) :: acc) := by
  interval_cases a <;> interval_cases b <;> rfl

theorem parseStrAux_escape :
    ∀ cs rest acc, parseStrAux (escapeList cs ++ '"' :: rest) acc =
      some (acc.reverse ++ cs, rest) := by
  intro cs
  induction cs with
  | nil =>
    intro rest acc
    simp only [escapeList, List.nil_append, List.append_nil]
    rw [show parseStrAux ('"' :: rest) acc = some (acc.reverse, rest) from rfl]
  | cons c cs ih =>
    intro rest acc
    simp only [escapeList, List.append_assoc]
    by_cases h1 : c = '"'
    · subst h1
      rw [show escapeChar '"' = ['\\', '"'] from by decide]
      simp only [List.cons_append, List.nil_append]
      rw [show parseStrAux ('\\' :: '"' :: (escapeList cs ++ '"' :: rest)) acc =
        parseStrAux (escapeList cs ++ '"' :: rest) ('"' :: acc) from rfl, ih]
      simp
    · by_cases h2 : c = '\\'
      · subst h2
        rw [show escapeChar '\\' = ['\\', '\\'] from by decide]
        simp only [List.cons_append, List.nil_append]
        rw [show parseStrAux ('\\' :: '\\' :: (escapeList cs ++ '"' :: rest)) acc =
          parseStrAux (escapeList cs ++ '"' :: rest) ('\\' :: acc) from rfl, ih]
        simp
      · by_cases h3 : c = '\x08'
        · subst h3
          rw [show escapeChar '\x08' = ['\\', 'b'] from by decide]
          simp only [List.cons_append, List.nil_append]
          rw [show parseStrAux ('\\' :: 'b' :: (escapeList cs ++ '"' :: rest)) acc =
            parseStrAux (escapeList cs ++ '"' :: rest) ('\x08' :: acc) from rfl, ih]
          simp
        · by_cases h4 : c = '\x0c'
          · subst h4
            rw [show escapeChar '\x0c' = ['\\', 'f'] from by decide]
            simp only [List.cons_append, List.nil_append]
            rw [show parseStrAux ('\\' :: 'f' :: (escapeList cs ++ '"' :: rest)) acc =
              parseStrAux (escapeList cs ++ '"' :: rest) ('\x0c' :: acc) from rfl, ih]
            simp
          · by_cases h5 : c = '\n'
            · subst h5
              rw [show escapeChar '\n' = ['\\', 'n'] from by decide]
              simp only [List.cons_append, List.nil_append]
              rw [show parseStrAux ('\\' :: 'n' :: (escapeList cs ++ '"' :: rest)) acc =
                parseStrAux (escapeList cs ++ '"' :: rest) ('\n' :: acc) from rfl, ih]
              simp
            · by_cases h6 : c = '\r'
              · subst h6
                rw [show escapeChar '\r' = ['\\', 'r'] from by decide]
                simp only [List.cons_append, List.nil_append]
                rw [show parseStrAux ('\\' :: 'r' :: (escapeList cs ++ '"' :: rest)) acc =
                  parseStrAux (escapeList cs ++ '"' :: rest) ('\r' :: acc) from rfl, ih]
                simp
              · by_cases h7 : c = '\t'
                · subst h7
                  rw [show escapeChar '\t' = ['\\', 't'] from by decide]
                  simp only [List.cons_append, List.nil_append]
                  rw [show parseStrAux ('\\' :: 't' :: (escapeList cs ++ '"' :: rest)) acc =
                    parseStrAux (escapeList cs ++ '"' :: rest) ('\t' :: acc) from rfl, ih]
                  simp
                · by_cases h8 : c.toNat < 32
                  · rw [show escapeChar c =
                        ['\\', 'u', '0', '0', hexDigitChar (c.toNat / 16),
                          hexDigitChar (c.toNat % 16)] from by
                      rw [escapeChar, if_neg h1, if_neg h2, if_neg h3, if_neg h4,
                        if_neg h5, if_neg h6, if_neg h7, if_pos h8]]
                    simp only [List.cons_append, List.nil_append]
                    rw [show parseStrAux ('\\' :: 'u' :: '0' :: '0' ::
                        hexDigitChar (c.toNat / 16) :: hexDigitChar (c.toNat % 16) ::
                        (escapeList cs ++ '"' :: rest)) acc =
                      parseEsc ('u' :: '0' :: '0' ::
                        hexDigitChar (c.toNat / 16) :: hexDigitChar (c.toNat % 16) ::
                        (escapeList cs ++ '"' :: rest)) acc from rfl]
                    rw [parseEsc_u (c.toNat / 16) (c.toNat % 16) (by omega) (by omega)]
                    rw [show c.toNat / 16 * 16 + c.toNat % 16 = c.toNat from by
                      have := Nat.div_add_mod c.toNat 16
                      omega]
                    rw [Char.ofNat_toNat, ih]
                    simp
                  · rw [show escapeChar c = [c] from by
                      rw [escapeChar, if_neg h1, if_neg h2, if_neg h3, if_neg h4,
                        if_neg h5, if_neg h6, if_neg h7, if_neg h8]]
                    simp only [List.cons_append, List.nil_append]
                    rw [parseStrAux, if_neg h1, if_neg h2, if_neg h8, ih]
                    simp

theorem keyLtAll_iff (k : String) :
    ∀ fs, keyLtAll k fs = true ↔ ∀ p ∈ fs, strLt k p.1 = true := by
  intro fs
  induction fs with
  | nil => simp [keyLtAll]
  | cons p fs ih =>
    obtain ⟨k2, v2⟩ := p
    simp [keyLtAll, ih]

theorem keyLtAll_of_lt {k k2 : String} {fs : List (String × Json)}
    (hlt : strLt k k2 = true) (h : keyLtAll k2 fs = true) :
    keyLtAll k fs = true := by
  rw [keyLtAll_iff] at h ⊢
  intro p hp
  exact strLt_trans hlt (h p hp)

theorem insertField_append (k : String) (v : Json) :
    ∀ acc, (∀ p ∈ acc, strLt p.1 k = true) →
      insertField k v acc = acc ++ [(k, v)] := by
  intro acc
  induction acc with
  | nil => intro h; rfl
  | cons p acc ih =>
    obtain ⟨k2, v2⟩ := p
    intro h
    have h2 : strLt k2 k = true := h (k2, v2) (by simp)
    have hnlt : strLt k k2 = false := strLt_asymm h2
    have hne : k ≠ k2 := by
      rintro rfl
      rw [strLt_irrefl] at h2
      exact Bool.false_ne_true h2
    rw [insertField, if_neg (by simp [hnlt]), if_neg hne]
    rw [ih (fun q hq => h q (by simp [hq]))]
    simp

theorem keyLtAll_insertField {k0 k : String} {v : Json}
    {fs : List (String × Json)} (h : keyLtAll k0 fs = true)
    (hlt : strLt k0 k = true) :
    keyLtAll k0 (insertField k v fs) = true := by
  induction fs with
  | nil => simp [insertField, keyLtAll, hlt]
  | cons p fs ih =>
    obtain ⟨k2, v2⟩ := p
    simp only [keyLtAll, Bool.and_eq_true] at h
    by_cases h1 : strLt k k2 = true
    · rw [insertField, if_pos h1]
      simp [keyLtAll, hlt, h.1, h.2]
    · by_cases h2 : k = k2
      · rw [insertField, if_neg (by simp [h1]), if_pos h2]
        simp [keyLtAll, hlt, h.2]
      · rw [insertField, if_neg (by simp [h1]), if_neg h2]
        simp [keyLtAll, h.1, ih h.2]

theorem canonF_insertField {k : String} {v : Json} :
    ∀ {fs : List (String × Json)}, canonF fs = true → canonJ v = true →
      canonF (insertField k v fs) = true := by
  intro fs
  induction fs with
  | nil =>
    intro hf hv
    simp [insertField, canonF, keyLtAll, hv]
  | cons p fs ih =>
    obtain ⟨k2, v2⟩ := p
    intro hf hv
    simp only [canonF, Bool.and_eq_true] at hf
    obtain ⟨⟨hv2, hall⟩, hfs⟩ := hf
    by_cases h1 : strLt k k2 = true
    · rw [insertField, if_pos h1]
      simp only [canonF, Bool.and_eq_true]
      exact ⟨⟨hv, by simp [keyLtAll, h1, keyLtAll_of_lt h1 hall]⟩, by
        simp [canonF, hv2, hall, hfs]⟩
    · by_cases h2 : k = k2
      · subst h2
        rw [insertField, if_neg (by simp [h1]), if_pos rfl]
        simp [canonF, hv, hall, hfs]
      · rw [insertField, if_neg (by simp [h1]), if_neg h2]
        have hk2k : strLt k2 k = true := by
          rcases strLt_total k k2 with h | h | h
          · exact absurd h h1
          · exact absurd h h2
          · exact h
        simp [canonF, hv2, keyLtAll_insertField hall hk2k, ih hfs hv]

theorem isDigit_toNat (c : Char) (h : c.isDigit = true) :
    48 ≤ c.toNat ∧ c.toNat ≤ 57 := by
  simp [Char.isDigit, Char.le_def] at h
  exact h

theorem digit_excl (c : Char) (h : c.isDigit = true) :
    c ≠ 'n' ∧ c ≠ 't' ∧ c ≠ 'f' ∧ c ≠ '"' ∧ c ≠ '-' ∧ c ≠ '[' ∧ c ≠ '\x7b' ∧
    isWsChar c = false ∧ c ≠ ']' ∧ c ≠ ',' := by
  have hws : isWsChar c = false := by
    have h1 : c ≠ ' ' := by rintro rfl; exact absurd h (by decide)
    have h2 : c ≠ '\n' := by rintro rfl; exact absurd h (by decide)
    have h3 : c ≠ '\r' := by rintro rfl; exact absurd h (by decide)
    have h4 : c ≠ '\t' := by rintro rfl; exact absurd h (by decide)
    simp [isWsChar, h1, h2, h3, h4]
  refine ⟨?_, ?_, ?_, ?_, ?_, ?_, ?_, hws, ?_, ?_⟩ <;>
    first
    | (rintro rfl; exact absurd h (by decide))

theorem intChars_ne_nil (n : Int) : intChars n ≠ [] := by
  unfold intChars
  by_cases hn : n < 0
  · simp [hn]
  · rw [if_neg hn, natDigits_eq]
    exact natDigitsRef_ne_nil _

theorem prettyV_head (v : Json) (d : Nat) :
    ∃ c tl, prettyV v d = c :: tl ∧ isWsChar c = false ∧ c ≠ ']' := by
  cases v with
  | null => exact ⟨'n', _, rfl, by decide, by decide⟩
  | bool b =>
    cases b with
    | true => exact ⟨'t', _, rfl, by decide, by decide⟩
    | false => exact ⟨'f', _, rfl, by decide, by decide⟩
  | num n =>
    show ∃ c tl, intChars n = c :: tl ∧ isWsChar c = false ∧ c ≠ ']'
    by_cases hn : n < 0
    · exact ⟨'-', _, by rw [intChars, if_pos hn], by decide, by decide⟩
    · rw [intChars, if_neg hn, natDigits_eq]
      cases hds : natDigitsRef n.toNat with
      | nil => exact absurd hds (natDigitsRef_ne_nil _)
      | cons c ds =>
        have hcd : c.isDigit = true :=
          natDigitsRef_all_digits _ c (by rw [hds]; simp)
        obtain ⟨-, -, -, -, -, -, -, hws, hbr, -⟩ := digit_excl c hcd
        exact ⟨c, ds, rfl, hws, hbr⟩
  | str s => exact ⟨'"', _, rfl, by decide, by decide⟩
  | arr xs =>
    cases xs with
    | nil => exact ⟨'[', _, rfl, by decide, by decide⟩
    | cons x xs => exact ⟨'[', _, rfl, by decide, by decide⟩
  | obj fs =>
    cases fs with
    | nil => exact ⟨'\x7b', _, rfl, by decide, by decide⟩
    | cons p fs =>
      obtain ⟨k, v⟩ := p
      exact ⟨'\x7b', _, rfl, by decide, by decide⟩

theorem noDigitHead_nil : NoDigitHead [] := by
  intro c h
  simp at h

theorem noDigitHead_cons {c : Char} (cs : List Char) (h : c.isDigit = false) :
    NoDigitHead (c :: cs) := by
  intro x hx
  simp only [List.head?_cons, Option.some.injEq] at hx
  rw [← hx]
  exact h

theorem noDigitHead_sepItems (xs : List Json) (d2 : Nat) (l : List Char) :
    NoDigitHead (sepItems xs d2 ++ '\n' :: l) := by
  cases xs with
  | nil => exact noDigitHead_cons l (by decide)
  | cons x xs =>
    rw [show sepItems (x :: xs) d2 =
      ',' :: '\n' :: (indChars d2 ++ prettyV x d2 ++ sepItems xs d2) from rfl]
    exact noDigitHead_cons _ (by decide)

theorem noDigitHead_sepFields (fs : List (String × Json)) (d2 : Nat)
    (l : List Char) :
    NoDigitHead (sepFields fs d2 ++ '\n' :: l) := by
  cases fs with
  | nil => exact noDigitHead_cons l (by decide)
  | cons p fs =>
    obtain ⟨k, v⟩ := p
    rw [show sepFields ((k, v) :: fs) d2 =
      ',' :: '\n' :: (indChars d2 ++ keyChars k ++ ':' :: ' ' ::
        (prettyV v d2 ++ sepFields fs d2)) from rfl]
    exact noDigitHead_cons _ (by decide)

mutual

theorem sizeJ_le : ∀ v d, sizeJ v ≤ (prettyV v d).length
  | .null, d => by simp [sizeJ, prettyV]
  | .bool b, d => by cases b <;> simp [sizeJ, prettyV]
  | .num n, d => by
    show sizeJ (.num n) ≤ (intChars n).length
    have h := List.length_pos.mpr (intChars_ne_nil n)
    simp only [sizeJ]
    omega
  | .str s, d => by
    show sizeJ (.str s) ≤ (keyChars s).length
    simp [sizeJ, keyChars]
  | .arr [], d => by simp [sizeJ, sizeL, prettyV]
  | .arr (x :: xs), d => by
    have h1 := sizeJ_le x (d + 1)
    have h2 := sizeL_le xs (d + 1)
    show sizeJ (.arr (x :: xs)) ≤
      ('[' :: '\n' :: (indChars (d + 1) ++ prettyV x (d + 1) ++
        sepItems xs (d + 1) ++ '\n' :: (indChars d ++ [']']))).length
    simp only [sizeJ, sizeL, List.length_cons, List.length_append,
      List.length_singleton, indChars, List.length_replicate]
    omega
  | .obj [], d => by simp [sizeJ, sizeF, prettyV]
  | .obj ((k, v) :: fs), d => by
    have h1 := sizeJ_le v (d + 1)
    have h2 := sizeF_le fs (d + 1)
    show sizeJ (.obj ((k, v) :: fs)) ≤
      ('\x7b' :: '\n' :: (indChars (d + 1) ++ keyChars k ++ ':' :: ' ' ::
        (prettyV v (d + 1) ++ sepFields fs (d + 1) ++ '\n' ::
          (indChars d ++ ['\x7d'])))).length
    simp only [sizeJ, sizeF, List.length_cons, List.length_append,
      List.length_singleton, indChars, List.length_replicate]
    omega

theorem sizeL_le : ∀ xs d, sizeL xs ≤ (sepItems xs d).length + 2
  | [], d => by simp [sizeL, sepItems]
  | x :: xs, d => by
    have h1 := sizeJ_le x d
    have h2 := sizeL_le xs d
    show sizeL (x :: xs) ≤
      (',' :: '\n' :: (indChars d ++ prettyV x d ++ sepItems xs d)).length + 2
    simp only [sizeL, List.length_cons, List.length_append]
    omega

theorem sizeF_le : ∀ fs d, sizeF fs ≤ (sepFields fs d).length + 2
  | [], d => by simp [sizeF, sepFields]
  | (k, v) :: fs, d => by
    have h1 := sizeJ_le v d
    have h2 := sizeF_le fs d
    show sizeF ((k, v) :: fs) ≤
      (',' :: '\n' :: (indChars d ++ keyChars k ++ ':' :: ' ' ::
        (prettyV v d ++ sepFields fs d))).length + 2
    simp only [sizeF, List.length_cons, List.length_append]
    omega

end

theorem sizeJ_pos (v : Json) : 1 ≤ sizeJ v := by
  cases v <;> simp [sizeJ]

theorem sizeL_pos (xs : List Json) : 1 ≤ sizeL xs := by
  cases xs with
  | nil => simp [sizeL]
  | cons x xs =>
    simp [sizeL]
    omega

theorem sizeF_pos (fs : List (String × Json)) : 1 ≤ sizeF fs := by
  cases fs with
  | nil => simp [sizeF]
  | cons p fs =>
    obtain ⟨k, v⟩ := p
    simp [sizeF]
    omega

theorem parseVal_cons (f : Nat) (cs : List Char) (c : Char) (r : List Char)
    (h : skipWs cs = c :: r) :
    parseVal (f + 1) cs =
      (if c = 'n' then
        match r with
        | 'u' :: 'l' :: 'l' :: r2 => some (.null, r2)
        | _ => none
      else if c = 't' then
        match r with
        | 'r' :: 'u' :: 'e' :: r2 => some (.bool true, r2)
        | _ => none
      else if c = 'f' then
        match r with
        | 'a' :: 'l' :: 's' :: 'e' :: r2 => some (.bool false, r2)
        | _ => none
      else if c = '"' then
        match parseStrAux r [] with
        | some (body, r2) => some (.str (String.mk body), r2)
        | none => none
      else if c = '-' then
        match parseNum r with
        | some (n, r2) => some (.num (-(n : Int)), r2)
        | none => none
      else if c = '[' then
        match skipWs r with
        | [] => none
        | c2 :: r2 =>
          if c2 = ']' then some (.arr [], r2)
          else
            match parseVal f (c2 :: r2) with
            | some (v, r3) => parseArrTail f r3 [v]
            | none => none
      else if c = '\x7b' then
        match skipWs r with
        | [] => none
        | c2 :: r2 =>
          if c2 = '\x7d' then some (.obj [], r2)
          else parseObjEntry f (c2 :: r2) []
      else if c.isDigit then
        match parseNum (c :: r) with
        | some (n, r2) => some (.num (n : Int), r2)
        | none => none
      else none) := by
  rw [parseVal, h]

theorem parseArrTail_cons (f : Nat) (cs : List Char) (c : Char) (r : List Char)
    (acc : List Json) (h : skipWs cs = c :: r) :
    parseArrTail (f + 1) cs acc =
      (if c = ',' then
        match parseVal f r with
        | some (v, r2) => parseArrTail f r2 (acc ++ [v])
        | none => none
      else if c = ']' then some (.arr acc, r)
      else none) := by
  rw [parseArrTail, h]

theorem parseObjEntry_cons (f : Nat) (cs : List Char) (c : Char) (r : List Char)
    (acc : List (String × Json)) (h : skipWs cs = c :: r) :
    parseObjEntry (f + 1) cs acc =
      (if c = '"' then
        match parseStrAux r [] with
        | some (body, r2) =>
          match skipWs r2 with
          | [] => none
          | c2 :: r3 =>
            if c2 = ':' then
              match parseVal f r3 with
              | some (v, r4) =>
                parseObjTail f r4 (insertField (String.mk body) v acc)
              | none => none
            else none
        | none => none
      else none) := by
  rw [parseObjEntry, h]

theorem parseObjTail_cons (f : Nat) (cs : List Char) (c : Char) (r : List Char)
    (acc : List (String × Json)) (h : skipWs cs = c :: r) :
    parseObjTail (f + 1) cs acc =
      (if c = ',' then parseObjEntry f r acc
      else if c = '\x7d' then some (.obj acc, r)
      else none) := by
  rw [parseObjTail, h]

/-- Round-trip core: with enough fuel, the parser consumes exactly
the pretty-printed form of a canonical value (with any leading
whitespace) and returns that value, for all four mutually recursive
parser entry points. -/
theorem parse_pretty_mutual : ∀ fuel : Nat,
    (∀ v d ws rest, canonJ v = true → sizeJ v ≤ fuel →
      (∀ c ∈ ws, isWsChar c = true) → NoDigitHead rest →
      parseVal fuel (ws ++ (prettyV v d ++ rest)) = some (v, rest)) ∧
    (∀ xs acc d2 d rest, canonL xs = true → sizeL xs ≤ fuel → NoDigitHead rest →
      parseArrTail fuel (sepItems xs d2 ++ '\n' :: (indChars d ++ ']' :: rest)) acc =
        some (.arr (acc ++ xs), rest)) ∧
    (∀ k v fs acc d2 d ws rest, canonJ v = true → keyLtAll k fs = true →
      canonF fs = true → 1 + sizeJ v + sizeF fs ≤ fuel →
      (∀ c ∈ ws, isWsChar c = true) → NoDigitHead rest →
      (∀ p ∈ acc, strLt p.1 k = true) →
      parseObjEntry fuel
        (ws ++ (keyChars k ++ ':' :: ' ' ::
          (prettyV v d2 ++ (sepFields fs d2 ++ '\n' ::
            (indChars d ++ '\x7d' :: rest))))) acc =
        some (.obj (acc ++ (k, v) :: fs), rest)) ∧
    (∀ fs acc d2 d rest, canonF fs = true → sizeF fs ≤ fuel → NoDigitHead rest →
      (∀ p ∈ acc, ∀ q ∈ fs, strLt p.1 q.1 = true) →
      parseObjTail fuel (sepFields fs d2 ++ '\n' :: (indChars d ++ '\x7d' :: rest)) acc =
        some (.obj (acc ++ fs), rest)) := by
  intro fuel
  induction fuel using Nat.strong_induction_on with
  | _ fuel IH =>
    cases fuel with
    | zero =>
      refine ⟨?_, ?_, ?_, ?_⟩
      · intro v d ws rest h1 h2 h3 h4
        have := sizeJ_pos v
        omega
      · intro xs acc d2 d rest h1 h2 h3
        have := sizeL_pos xs
        omega
      · intro k v fs acc d2 d ws rest h1 h2 h3 h4 h5 h6 h7
        have := sizeJ_pos v
        have := sizeF_pos fs
        omega
      · intro fs acc d2 d rest h1 h2 h3 h4
        have := sizeF_pos fs
        omega
    | succ f =>
      obtain ⟨IHA, IHB, IHC, IHD⟩ := IH f (by omega)
      refine ⟨?_, ?_, ?_, ?_⟩
      · -- (A) parseVal on a printed value
        intro v d ws rest hcanon hsize hws hrest
        cases v with
        | null =>
          have hskip : skipWs (ws ++ (prettyV .null d ++ rest)) =
              'n' :: ('u' :: 'l' :: 'l' :: rest) := by
            rw [skipWs_ws_append ws _ hws]
            rfl
          rw [parseVal_cons f _ 'n' _ hskip]
          rfl
        | bool b =>
          cases b with
          | true =>
            have hskip : skipWs (ws ++ (prettyV (.bool true) d ++ rest)) =
                't' :: ('r' :: 'u' :: 'e' :: rest) := by
              rw [skipWs_ws_append ws _ hws]
              rfl
            rw [parseVal_cons f _ 't' _ hskip]
            rfl
          | false =>
            have hskip : skipWs (ws ++ (prettyV (.bool false) d ++ rest)) =
                'f' :: ('a' :: 'l' :: 's' :: 'e' :: rest) := by
              rw [skipWs_ws_append ws _ hws]
              rfl
            rw [parseVal_cons f _ 'f' _ hskip]
            rfl
        | num n =>
          by_cases hn : n < 0
          · have hpretty : prettyV (.num n) d = '-' :: natDigits n.natAbs := by
              show intChars n = _
              rw [intChars, if_pos hn]
            have hskip : skipWs (ws ++ (prettyV (.num n) d ++ rest)) =
                '-' :: (natDigits n.natAbs ++ rest) := by
              rw [skipWs_ws_append ws _ hws, hpretty]
              rfl
            rw [parseVal_cons f _ '-' _ hskip]
            change (match parseNum (natDigits n.natAbs ++ rest) with
              | some (n2, r2) => some (Json.num (-(n2 : Int)), r2)
              | none => none) = some (Json.num n, rest)
            rw [parseNum_digits n.natAbs rest hrest]
            have hval : (-(n.natAbs : Int)) = n := by omega
            change some (Json.num (-(n.natAbs : Int)), rest) = some (Json.num n, rest)
            rw [hval]
          · have hint : intChars n = natDigitsRef n.toNat := by
              rw [intChars, if_neg hn, natDigits_eq]
            cases hds : natDigitsRef n.toNat with
            | nil => exact absurd hds (natDigitsRef_ne_nil _)
            | cons c0 ds =>
              have hcd : c0.isDigit = true :=
                natDigitsRef_all_digits _ c0 (by rw [hds]; simp)
              obtain ⟨he1, he2, he3, he4, he5, he6, he7, hnws, -, -⟩ :=
                digit_excl c0 hcd
              have hskip : skipWs (ws ++ (prettyV (.num n) d ++ rest)) =
                  c0 :: (ds ++ rest) := by
                rw [skipWs_ws_append ws _ hws]
                show skipWs (intChars n ++ rest) = _
                rw [hint, hds]
                simp only [List.cons_append]
                rw [skipWs_cons_nonWs _ _ hnws]
              rw [parseVal_cons f _ c0 _ hskip]
              rw [if_neg he1, if_neg he2, if_neg he3, if_neg he4, if_neg he5,
                if_neg he6, if_neg he7, if_pos hcd]
              have hnd : natDigits n.toNat ++ rest = c0 :: (ds ++ rest) := by
                rw [natDigits_eq, hds]
                simp
              rw [← hnd, parseNum_digits n.toNat rest hrest]
              change some (Json.num ((n.toNat : Nat) : Int), rest) =
                some (Json.num n, rest)
              rw [Int.toNat_of_nonneg (by omega)]
        | str s =>
          have hskip : skipWs (ws ++ (prettyV (.str s) d ++ rest)) =
              '"' :: (escapeList s.data ++ ('"' :: rest)) := by
            rw [skipWs_ws_append ws _ hws]
            show skipWs (keyChars s ++ rest) = _
            simp only [keyChars, List.cons_append, List.append_assoc,
              List.singleton_append, List.nil_append]
            rw [skipWs_cons_nonWs _ _ (by decide)]
          rw [parseVal_cons f _ '"' _ hskip]
          change (match parseStrAux (escapeList s.data ++ ('"' :: rest)) [] with
            | some (body, r2) => some (Json.str (String.mk body), r2)
            | none => none) = some (Json.str s, rest)
          rw [parseStrAux_escape s.data rest []]
          rfl
        | arr xs =>
          cases xs with
          | nil =>
            have hskip : skipWs (ws ++ (prettyV (.arr []) d ++ rest)) =
                '[' :: (']' :: rest) := by
              rw [skipWs_ws_append ws _ hws]
              rfl
            rw [parseVal_cons f _ '[' _ hskip]
            rfl
          | cons x xs =>
            simp only [canonJ, canonL, Bool.and_eq_true] at hcanon
            obtain ⟨hcx, hcxs⟩ := hcanon
            simp only [sizeJ, sizeL] at hsize
            obtain ⟨c2, tl, hx, hxws, hxbr⟩ := prettyV_head x (d + 1)
            have hskip : skipWs (ws ++ (prettyV (.arr (x :: xs)) d ++ rest)) =
                '[' :: ('\n' :: (indChars (d + 1) ++ (prettyV x (d + 1) ++
                  (sepItems xs (d + 1) ++ ('\n' :: (indChars d ++ (']' :: rest))))))) := by
              rw [skipWs_ws_append ws _ hws]
              show skipWs (('[' :: '\n' :: (indChars (d + 1) ++ prettyV x (d + 1) ++
                sepItems xs (d + 1) ++ '\n' :: (indChars d ++ [']']))) ++ rest) = _
              simp only [List.cons_append, List.append_assoc, List.singleton_append,
                List.nil_append]
              rw [skipWs_cons_nonWs _ _ (by decide)]
            rw [parseVal_cons f _ '[' _ hskip]
            change (match skipWs ('\n' :: (indChars (d + 1) ++ (prettyV x (d + 1) ++
                (sepItems xs (d + 1) ++ ('\n' :: (indChars d ++ (']' :: rest))))))) with
              | [] => none
              | c2 :: r2 =>
                if c2 = ']' then some (Json.arr [], r2)
                else
                  match parseVal f (c2 :: r2) with
                  | some (v, r3) => parseArrTail f r3 [v]
                  | none => none) = some (Json.arr (x :: xs), rest)
            have hskip2 : skipWs ('\n' :: (indChars (d + 1) ++ (prettyV x (d + 1) ++
                (sepItems xs (d + 1) ++ ('\n' :: (indChars d ++ (']' :: rest))))))) =
                c2 :: (tl ++ (sepItems xs (d + 1) ++ ('\n' :: (indChars d ++
                  (']' :: rest))))) := by
              rw [show skipWs ('\n' :: (indChars (d + 1) ++ (prettyV x (d + 1) ++
                  (sepItems xs (d + 1) ++ ('\n' :: (indChars d ++ (']' :: rest))))))) =
                skipWs (indChars (d + 1) ++ (prettyV x (d + 1) ++
                  (sepItems xs (d + 1) ++ ('\n' :: (indChars d ++ (']' :: rest))))))
                from rfl]
              rw [skipWs_ws_append _ _ (indChars_allWs (d + 1)), hx]
              simp only [List.cons_append]
              rw [skipWs_cons_nonWs _ _ hxws]
            rw [hskip2]
            change (if c2 = ']' then
                some (Json.arr [], tl ++ (sepItems xs (d + 1) ++
                  ('\n' :: (indChars d ++ (']' :: rest)))))
              else
                match parseVal f (c2 :: (tl ++ (sepItems xs (d + 1) ++
                    ('\n' :: (indChars d ++ (']' :: rest)))))) with
                | some (v, r3) => parseArrTail f r3 [v]
                | none => none) = some (Json.arr (x :: xs), rest)
            rw [if_neg hxbr]
            have hform : c2 :: (tl ++ (sepItems xs (d + 1) ++
                ('\n' :: (indChars d ++ (']' :: rest))))) =
                prettyV x (d + 1) ++ (sepItems xs (d + 1) ++
                  ('\n' :: (indChars d ++ (']' :: rest)))) := by
              rw [hx]
              rfl
            rw [hform]
            have hIHx := IHA x (d + 1) []
              (sepItems xs (d + 1) ++ ('\n' :: (indChars d ++ (']' :: rest))))
              hcx (by omega) (by intro c hc; simp at hc)
              (noDigitHead_sepItems xs (d + 1) (indChars d ++ (']' :: rest)))
            simp only [List.nil_append] at hIHx
            rw [hIHx]
            change parseArrTail f (sepItems xs (d + 1) ++
              ('\n' :: (indChars d ++ (']' :: rest)))) [x] =
              some (Json.arr (x :: xs), rest)
            have hIHxs := IHB xs [x] (d + 1) d rest hcxs (by omega) hrest
            rw [hIHxs]
            simp
        | obj fs =>
          cases fs with
          | nil =>
            have hskip : skipWs (ws ++ (prettyV (.obj []) d ++ rest)) =
                '\x7b' :: ('\x7d' :: rest) := by
              rw [skipWs_ws_append ws _ hws]
              rfl
            rw [parseVal_cons f _ '\x7b' _ hskip]
            rfl
          | cons p fs =>
            obtain ⟨k, v⟩ := p
            simp only [canonJ, canonF, Bool.and_eq_true] at hcanon
            obtain ⟨⟨hv, hkall⟩, hcf⟩ := hcanon
            simp only [sizeJ, sizeF] at hsize
            have hskip : skipWs (ws ++ (prettyV (.obj ((k, v) :: fs)) d ++ rest)) =
                '\x7b' :: ('\n' :: (indChars (d + 1) ++ (keyChars k ++ ':' :: ' ' ::
                  (prettyV v (d + 1) ++ (sepFields fs (d + 1) ++ '\n' ::
                    (indChars d ++ '\x7d' :: rest)))))) := by
              rw [skipWs_ws_append ws _ hws]
              show skipWs (('\x7b' :: '\n' :: (indChars (d + 1) ++ keyChars k ++
                ':' :: ' ' :: (prettyV v (d + 1) ++ sepFields fs (d + 1) ++ '\n' ::
                  (indChars d ++ ['\x7d'])))) ++ rest) = _
              simp only [List.cons_append, List.append_assoc, List.singleton_append,
                List.nil_append]
              rw [skipWs_cons_nonWs _ _ (by decide)]
            rw [parseVal_cons f _ '\x7b' _ hskip]
            change (match skipWs ('\n' :: (indChars (d + 1) ++ (keyChars k ++
                ':' :: ' ' :: (prettyV v (d + 1) ++ (sepFields fs (d + 1) ++ '\n' ::
                  (indChars d ++ '\x7d' :: rest)))))) with
              | [] => none
              | c2 :: r2 =>
                if c2 = '\x7d' then some (Json.obj [], r2)
                else parseObjEntry f (c2 :: r2) []) =
              some (Json.obj ((k, v) :: fs), rest)
            have hskip2 : skipWs ('\n' :: (indChars (d + 1) ++ (keyChars k ++
                ':' :: ' ' :: (prettyV v (d + 1) ++ (sepFields fs (d + 1) ++ '\n' ::
                  (indChars d ++ '\x7d' :: rest)))))) =
                '"' :: (escapeList k.data ++ ('"' :: (':' :: ' ' ::
                  (prettyV v (d + 1) ++ (sepFields fs (d + 1) ++ '\n' ::
                    (indChars d ++ '\x7d' :: rest)))))) := by
              rw [show skipWs ('\n' :: (indChars (d + 1) ++ (keyChars k ++
                  ':' :: ' ' :: (prettyV v (d + 1) ++ (sepFields fs (d + 1) ++ '\n' ::
                    (indChars d ++ '\x7d' :: rest)))))) =
                skipWs (indChars (d + 1) ++ (keyChars k ++ ':' :: ' ' ::
                  (prettyV v (d + 1) ++ (sepFields fs (d + 1) ++ '\n' ::
                    (indChars d ++ '\x7d' :: rest))))) from rfl]
              rw [skipWs_ws_append _ _ (indChars_allWs (d + 1))]
              simp only [keyChars, List.cons_append, List.append_assoc,
                List.singleton_append, List.nil_append]
              rw [skipWs_cons_nonWs _ _ (by decide)]
            rw [hskip2]
            change parseObjEntry f ('"' :: (escapeList k.data ++ ('"' :: (':' :: ' ' ::
              (prettyV v (d + 1) ++ (sepFields fs (d + 1) ++ '\n' ::
                (indChars d ++ '\x7d' :: rest))))))) [] =
              some (Json.obj ((k, v) :: fs), rest)
            have hIHo := IHC k v fs [] (d + 1) d [] rest hv hkall hcf (by omega)
              (by intro c hc; simp at hc) hrest (by intro p hp; simp at hp)
            simp only [List.nil_append, keyChars, List.cons_append,
              List.append_assoc, List.singleton_append] at hIHo
            rw [hIHo]
      · -- (B) parseArrTail on printed trailing elements
        intro xs acc d2 d rest hcanon hsize hrest
        cases xs with
        | nil =>
          have hskip : skipWs (sepItems [] d2 ++ '\n' ::
              (indChars d ++ ']' :: rest)) = ']' :: rest := by
            show skipWs ('\n' :: (indChars d ++ ']' :: rest)) = _
            rw [show skipWs ('\n' :: (indChars d ++ ']' :: rest)) =
              skipWs (indChars d ++ ']' :: rest) from rfl]
            rw [skipWs_ws_append _ _ (indChars_allWs d)]
            rw [skipWs_cons_nonWs _ _ (by decide)]
          rw [parseArrTail_cons f _ ']' rest acc hskip]
          rw [if_neg (by decide), if_pos rfl]
          simp
        | cons x xs =>
          simp only [canonL, Bool.and_eq_true] at hcanon
          obtain ⟨hcx, hcxs⟩ := hcanon
          simp only [sizeL] at hsize
          have hskip : skipWs (sepItems (x :: xs) d2 ++ '\n' ::
              (indChars d ++ ']' :: rest)) =
              ',' :: ('\n' :: (indChars d2 ++ (prettyV x d2 ++ (sepItems xs d2 ++
                ('\n' :: (indChars d ++ (']' :: rest))))))) := by
            show skipWs ((',' :: '\n' :: (indChars d2 ++ prettyV x d2 ++
              sepItems xs d2)) ++ '\n' :: (indChars d ++ ']' :: rest)) = _
            simp only [List.cons_append, List.append_assoc]
            rw [skipWs_cons_nonWs _ _ (by decide)]
          rw [parseArrTail_cons f _ ',' _ acc hskip, if_pos rfl]
          have hIHx := IHA x d2 ('\n' :: indChars d2)
            (sepItems xs d2 ++ ('\n' :: (indChars d ++ (']' :: rest))))
            hcx (by omega)
            (by
              intro c hc
              rcases List.mem_cons.mp hc with rfl | hc
              · rfl
              · exact indChars_allWs d2 c hc)
            (noDigitHead_sepItems xs d2 (indChars d ++ (']' :: rest)))
          simp only [List.cons_append, List.append_assoc] at hIHx
          rw [hIHx]
          change parseArrTail f (sepItems xs d2 ++ ('\n' :: (indChars d ++
            (']' :: rest)))) (acc ++ [x]) = some (Json.arr (acc ++ x :: xs), rest)
          have hIHxs := IHB xs (acc ++ [x]) d2 d rest hcxs (by omega) hrest
          rw [hIHxs]
          simp
      · -- (C) parseObjEntry on a printed entry
        intro k v fs acc d2 d ws rest hv hkall hcf hsize hws hrest hacc
        have hskip : skipWs (ws ++ (keyChars k ++ ':' :: ' ' ::
            (prettyV v d2 ++ (sepFields fs d2 ++ '\n' ::
              (indChars d ++ '\x7d' :: rest))))) =
            '"' :: (escapeList k.data ++ ('"' :: (':' :: ' ' ::
              (prettyV v d2 ++ (sepFields fs d2 ++ '\n' ::
                (indChars d ++ '\x7d' :: rest)))))) := by
          rw [skipWs_ws_append ws _ hws]
          simp only [keyChars, List.cons_append, List.append_assoc,
            List.singleton_append, List.nil_append]
          rw [skipWs_cons_nonWs _ _ (by decide)]
        rw [parseObjEntry_cons f _ '"' _ acc hskip]
        change (match parseStrAux (escapeList k.data ++ ('"' :: (':' :: ' ' ::
            (prettyV v d2 ++ (sepFields fs d2 ++ '\n' ::
              (indChars d ++ '\x7d' :: rest)))))) [] with
          | some (body, r2) =>
            match skipWs r2 with
            | [] => none
            | c2 :: r3 =>
              if c2 = ':' then
                match parseVal f r3 with
                | some (v2, r4) =>
                  parseObjTail f r4 (insertField (String.mk body) v2 acc)
                | none => none
              else none
          | none => none) = some (Json.obj (acc ++ (k, v) :: fs), rest)
        rw [parseStrAux_escape k.data _ []]
        change (match parseVal f (' ' :: (prettyV v d2 ++ (sepFields fs d2 ++
            '\n' :: (indChars d ++ '\x7d' :: rest)))) with
          | some (v2, r4) =>
            parseObjTail f r4 (insertField (String.mk ([].reverse ++ k.data)) v2 acc)
          | none => none) = some (Json.obj (acc ++ (k, v) :: fs), rest)
        have hIHv := IHA v d2 [' ']
          (sepFields fs d2 ++ '\n' :: (indChars d ++ '\x7d' :: rest))
          hv (by omega)
          (by
            intro c hc
            rw [List.mem_singleton.mp hc]
            rfl)
          (noDigitHead_sepFields fs d2 (indChars d ++ '\x7d' :: rest))
        simp only [List.singleton_append, List.cons_append, List.nil_append] at hIHv
        rw [hIHv]
        change parseObjTail f (sepFields fs d2 ++ '\n' ::
          (indChars d ++ '\x7d' :: rest))
          (insertField (String.mk ([].reverse ++ k.data)) v acc) =
          some (Json.obj (acc ++ (k, v) :: fs), rest)
        have hkeq : String.mk ([].reverse ++ k.data) = k := by
          simp [stringMk_data]
        rw [hkeq, insertField_append k v acc hacc]
        have hIHt := IHD fs (acc ++ [(k, v)]) d2 d rest hcf (by omega) hrest
          (by
            intro p hp q hq
            rcases List.mem_append.mp hp with hp | hp
            · exact strLt_trans (hacc p hp) ((keyLtAll_iff k fs).mp hkall q hq)
            · rcases List.mem_singleton.mp hp with rfl
              exact (keyLtAll_iff k fs).mp hkall q hq)
        rw [hIHt]
        simp
      · -- (D) parseObjTail on printed trailing fields
        intro fs acc d2 d rest hcf hsize hrest hpairs
        cases fs with
        | nil =>
          have hskip : skipWs (sepFields [] d2 ++ '\n' ::
              (indChars d ++ '\x7d' :: rest)) = '\x7d' :: rest := by
            show skipWs ('\n' :: (indChars d ++ '\x7d' :: rest)) = _
            rw [show skipWs ('\n' :: (indChars d ++ '\x7d' :: rest)) =
              skipWs (indChars d ++ '\x7d' :: rest) from rfl]
            rw [skipWs_ws_append _ _ (indChars_allWs d)]
            rw [skipWs_cons_nonWs _ _ (by decide)]
          rw [parseObjTail_cons f _ '\x7d' rest acc hskip]
          rw [if_neg (by decide), if_pos rfl]
          simp
        | cons p fs =>
          obtain ⟨k2, v2⟩ := p
          simp only [canonF, Bool.and_eq_true] at hcf
          obtain ⟨⟨hv2, hkall2⟩, hcf2⟩ := hcf
          simp only [sizeF] at hsize
          have hskip : skipWs (sepFields ((k2, v2) :: fs) d2 ++ '\n' ::
              (indChars d ++ '\x7d' :: rest)) =
              ',' :: ('\n' :: (indChars d2 ++ (keyChars k2 ++ ':' :: ' ' ::
                (prettyV v2 d2 ++ (sepFields fs d2 ++ '\n' ::
                  (indChars d ++ '\x7d' :: rest)))))) := by
            show skipWs ((',' :: '\n' :: (indChars d2 ++ keyChars k2 ++
              ':' :: ' ' :: (prettyV v2 d2 ++ sepFields fs d2))) ++ '\n' ::
                (indChars d ++ '\x7d' :: rest)) = _
            simp only [List.cons_append, List.append_assoc]
            rw [skipWs_cons_nonWs _ _ (by decide)]
          rw [parseObjTail_cons f _ ',' _ acc hskip, if_pos rfl]
          have hIHe := IHC k2 v2 fs acc d2 d ('\n' :: indChars d2) rest hv2
            hkall2 hcf2 (by omega)
            (by
              intro c hc
              rcases List.mem_cons.mp hc with rfl | hc
              · rfl
              · exact indChars_allWs d2 c hc)
            hrest
            (by
              intro p hp
              exact hpairs p hp (k2, v2) (by simp))
          simp only [List.cons_append, List.append_assoc] at hIHe
          rw [hIHe]

theorem canonL_append (xs ys : List Json) :
    canonL (xs ++ ys) = (canonL xs && canonL ys) := by
  induction xs with
  | nil => simp [canonL]
  | cons x xs ih => simp [canonL, ih, Bool.and_assoc]

/-- Canonicity of parser output: every value any of the four parser
entry points returns has key-sorted objects throughout, because
object entries are accumulated with the sorted-map insert. -/
theorem parse_canon_mutual : ∀ fuel : Nat,
    (∀ cs v r, parseVal fuel cs = some (v, r) → canonJ v = true) ∧
    (∀ cs acc v r, canonL acc = true → parseArrTail fuel cs acc = some (v, r) →
      canonJ v = true) ∧
    (∀ cs acc v r, canonF acc = true → parseObjEntry fuel cs acc = some (v, r) →
      canonJ v = true) ∧
    (∀ cs acc v r, canonF acc = true → parseObjTail fuel cs acc = some (v, r) →
      canonJ v = true) := by
  intro fuel
  induction fuel using Nat.strong_induction_on with
  | _ fuel IH =>
    cases fuel with
    | zero =>
      refine ⟨?_, ?_, ?_, ?_⟩
      · intro cs v r h
        simp [parseVal] at h
      · intro cs acc v r hacc h
        simp [parseArrTail] at h
      · intro cs acc v r hacc h
        simp [parseObjEntry] at h
      · intro cs acc v r hacc h
        simp [parseObjTail] at h
    | succ f =>
      obtain ⟨IH1, IH2, IH3, IH4⟩ := IH f (by omega)
      refine ⟨?_, ?_, ?_, ?_⟩
      · intro cs v r h
        cases hcs : skipWs cs with
        | nil =>
          rw [parseVal, hcs] at h
          simp at h
        | cons c cs2 =>
          rw [parseVal_cons f cs c cs2 hcs] at h
          repeat' split at h
          all_goals first
          | (simp only [Option.some.injEq, Prod.mk.injEq] at h
             obtain ⟨rfl, -⟩ := h
             rfl)
          | (rename_i v1 r3 heq
             exact IH2 _ [v1] v r (by simp [canonL, canonJ, IH1 _ _ _ heq]) h)
          | exact IH3 _ [] v r rfl h
          | exact absurd h (by simp)
      · intro cs acc v r hacc h
        cases hcs : skipWs cs with
        | nil =>
          rw [parseArrTail, hcs] at h
          simp at h
        | cons c cs2 =>
          rw [parseArrTail_cons f cs c cs2 acc hcs] at h
          repeat' split at h
          all_goals first
          | (simp only [Option.some.injEq, Prod.mk.injEq] at h
             obtain ⟨rfl, -⟩ := h
             simpa [canonJ] using hacc)
          | (rename_i v1 r2 heq
             exact IH2 _ (acc ++ [v1]) v r
               (by simp [canonL_append, hacc, canonL, canonJ, IH1 _ _ _ heq]) h)
          | exact absurd h (by simp)
      · intro cs acc v r hacc h
        cases hcs : skipWs cs with
        | nil =>
          rw [parseObjEntry, hcs] at h
          simp at h
        | cons c cs2 =>
          rw [parseObjEntry_cons f cs c cs2 acc hcs] at h
          repeat' split at h
          all_goals first
          | (rename_i v2 r4 heq3
             exact IH4 _ _ v r (canonF_insertField hacc (IH1 _ _ _ heq3)) h)
          | exact absurd h (by simp)
      · intro cs acc v r hacc h
        cases hcs : skipWs cs with
        | nil =>
          rw [parseObjTail, hcs] at h
          simp at h
        | cons c cs2 =>
          rw [parseObjTail_cons f cs c cs2 acc hcs] at h
          repeat' split at h
          all_goals first
          | exact IH3 _ acc v r hacc h
          | (simp only [Option.some.injEq, Prod.mk.injEq] at h
             obtain ⟨rfl, -⟩ := h
             simpa [canonJ] using hacc)
          | exact absurd h (by simp)

/-- Any value returned by Json.parse is canonical. -/
theorem Json.parse_canon (s : String) (v : Json) (h : Json.parse s = some v) :
    canonJ v = true := by
  unfold Json.parse at h
  cases hp : parseVal (s.data.length + 1) s.data with
  | none => rw [hp] at h; simp at h
  | some p =>
    obtain ⟨v2, r⟩ := p
    rw [hp] at h
    change (if skipWs r = [] then some v2 else none) = some v at h
    by_cases hr : skipWs r = []
    · rw [if_pos hr] at h
      simp only [Option.some.injEq] at h
      subst h
      exact (parse_canon_mutual (s.data.length + 1)).1 s.data v2 r hp
    · rw [if_neg hr] at h
      simp at h

/-- Reparsing the pretty-printed form of a canonical value returns
that value: the parse and print embeddings invert each other. -/
theorem Json.parse_prettyPrint (v : Json) (h : canonJ v = true) :
    Json.parse (prettyPrint v) = some v := by
  have hA := (parse_pretty_mutual ((prettyV v 0).length + 1)).1 v 0 [] [] h
    (by have := sizeJ_le v 0; omega) (by intro c hc; simp at hc) noDigitHead_nil
  simp only [List.nil_append, List.append_nil] at hA
  unfold Json.parse prettyPrint
  rw [show (String.mk (prettyV v 0)).data = prettyV v 0 from rfl]
  rw [hA]
  rfl

/-- C1: saving any text that parses as JSON and then loading returns
a record structurally equal to the saved one up to JSON formatting
normalization: the loaded text is the canonical pretty printing of
the parsed value, and it reparses to exactly that value. -/
theorem round_trip_save_load (env : AppEnv) (io2 : IoBehavior) (fs : FileState)
    (blob d : String) (v : Json) (henv : env.appDataDir = .ok d)
    (hmk : io2.mkdirFails = none) (hw : io2.writeFails = none)
    (hch : io2.chmodFails = none) (hrd : io2.readFails = none)
    (hparse : Json.parse blob = some v) :
    (save_payment_profile_blob env io2 fs blob).1 = .ok () ∧
    (load_payment_profile_blob env io2
        (save_payment_profile_blob env io2 fs blob).2).1 =
      .ok (some (prettyPrint v)) ∧
    Json.parse (prettyPrint v) = some v := by
  refine ⟨?_, ?_, ?_⟩
  · simp [save_payment_profile_blob, payment_profile_path, henv, hmk, hparse, hw, hch]
  · simp [save_payment_profile_blob, load_payment_profile_blob,
      payment_profile_path, henv, hmk, hparse, hw, hch, hrd]
  · exact Json.parse_prettyPrint v (Json.parse_canon blob v hparse)

/-- C1 witness: a concrete profile object with unsorted spacing is
saved, loaded back as canonical pretty JSON, and reparses to the
same structure. -/
theorem round_trip_save_load_witness :
    (save_payment_profile_blob envOk ioOk fsEmpty
        "\x7b\"cardNumber\":\"4111111111111111\",\"zipCode\":\"94107\"\x7d").1 =
      .ok () ∧
    (load_payment_profile_blob envOk ioOk
        (save_payment_profile_blob envOk ioOk fsEmpty
          "\x7b\"cardNumber\":\"4111111111111111\",\"zipCode\":\"94107\"\x7d").2).1 =
      .ok (some (prettyPrint
        (.obj [("cardNumber", .str "4111111111111111"), ("zipCode", .str "94107")]))) ∧
    Json.parse (prettyPrint
        (.obj [("cardNumber", .str "4111111111111111"), ("zipCode", .str "94107")])) =
      some (.obj [("cardNumber", .str "4111111111111111"), ("zipCode", .str "94107")]) :=
  round_trip_save_load envOk ioOk fsEmpty
    "\x7b\"cardNumber\":\"4111111111111111\",\"zipCode\":\"94107\"\x7d"
    "/data/app"
    (.obj [("cardNumber", .str "4111111111111111"), ("zipCode", .str "94107")])
    rfl rfl rfl rfl rfl (by decide)

end ParkOS
